import Mathlib

/-!
Verification of the MARC21 metadata core of `invenio-records-marc21`
(`invenio_records_marc21/services/record/metadata.py`).

The development shallowly embeds:
  * the lxml element tree (`Elem`: namespace, local tag name, attributes,
    text, ordered children),
  * Python values held in the visitor's record dictionary (`PyVal`),
  * the `XmlToJsonVisitor` traversal (`process` / `visitL`, with the
    Python failure modes: unknown tag → `ValueError`, indexing the
    list-valued `fields` produced by `visit_record` → `TypeError`,
    `.append` on a non-list → `AttributeError`, `self.subfields` used
    before any datafield → `AttributeError`),
  * the `Marc21Metadata` document object with its getters, setters and
    emplace operations.
-/

namespace Marc21

/-- A Python value as it occurs in the visitor's record dictionary:
`None`, strings, lists and dicts.  Python dicts preserve insertion
order; keys here are `Option String` because `node.get("tag")` may be
`None` and `None` is a legal dict key in Python. -/
inductive PyVal : Type where
  | none : PyVal
  | str : String → PyVal
  | list : List PyVal → PyVal
  | dict : List (Option String × PyVal) → PyVal

/-- Conversion of `node.text` to a Python value (`None` or a string). -/
def pyOfText : Option String → PyVal
  | Option.none => PyVal.none
  | some s => PyVal.str s

/-- Python's `s.replace(" ", "_")` for the one-character pattern used
by the visitor: every space character becomes an underscore. -/
def replaceSpace (s : String) : String :=
  String.mk (s.data.map (fun ch => if ch = ' ' then '_' else ch))

/-- Lookup in an insertion-ordered dict (`d[k]` / `d.get(k)`). -/
def dictGet (l : List (Option String × PyVal)) (k : Option String) : Option PyVal :=
  (l.find? (fun p => p.1 = k)).map (fun p => p.2)

/-- Assignment `d[k] = v` on an insertion-ordered dict: an existing key
keeps its position, a new key is appended at the end. -/
def dictSet (l : List (Option String × PyVal)) (k : Option String) (v : PyVal) :
    List (Option String × PyVal) :=
  match l with
  | [] => [(k, v)]
  | (k', v') :: rest => if k' = k then (k, v) :: rest else (k', v') :: dictSet rest k v

/-- An lxml `_Element`: namespace and local name (together the QName),
attributes, text and ordered children. -/
inductive Elem : Type where
  | mk (ns : Option String) (tag : String) (attrs : List (String × String))
      (text : Option String) (children : List Elem) : Elem

namespace Elem

def ns : Elem → Option String
  | .mk n _ _ _ _ => n

def tag : Elem → String
  | .mk _ t _ _ _ => t

def attrs : Elem → List (String × String)
  | .mk _ _ a _ _ => a

def text : Elem → Option String
  | .mk _ _ _ t _ => t

def children : Elem → List Elem
  | .mk _ _ _ _ c => c

/-- Attribute lookup `node.get(k)`. -/
def get (e : Elem) (k : String) : Option String :=
  (e.attrs.find? (fun p => p.1 = k)).map (fun p => p.2)

/-- Replace the child list (used to model in-place child mutation). -/
def withChildren (e : Elem) (cs : List Elem) : Elem :=
  match e with
  | .mk n t a tx _ => .mk n t a tx cs

/-- Model of `parent.append(child)` for a child that has no parent yet. -/
def appendChild (e : Elem) (c : Elem) : Elem :=
  e.withChildren (e.children ++ [c])

end Elem

mutual

/-- All proper descendants of a node in document (pre-)order, matching
the order in which lxml's `.//` axis returns nodes. -/
def Elem.descendants : Elem → List Elem
  | .mk _ _ _ _ cs => descendantsList cs

/-- Descendant-or-self nodes of a forest, in document order. -/
def descendantsList : List Elem → List Elem
  | [] => []
  | c :: cs => c :: (Elem.descendants c ++ descendantsList cs)

end

/-- Failure modes of `XmlToJsonVisitor`:
`unsupported` is the `ValueError` raised by `func_not_found` (carrying
the element's local name and namespace); `typeError` models indexing a
list with a string key; `attributeError` models `.append` on a value
without that method, or reading the not-yet-assigned `self.subfields`;
`keyError` models a missing dict key (unreachable from the real states
but required for a total embedding). -/
inductive ConvErr : Type where
  | unsupported (localname : String) (ns : Option String) : ConvErr
  | typeError : ConvErr
  | attributeError : ConvErr
  | keyError : ConvErr
deriving DecidableEq, Repr

/-- Visitor state: `self.record` is always a dict (we keep its entry
list), `self.subfields` is unset (`none`) until the first
`visit_datafield` assigns it. -/
structure VState : Type where
  record : List (Option String × PyVal)
  subfields : Option (List (Option String × PyVal))

/-- Model of `XmlToJsonVisitor.append_string`: `self.record["fields"][tag] = v`. -/
def appendString (tagA : Option String) (v : PyVal) (st : VState) : Except ConvErr VState :=
  match dictGet st.record (some "fields") with
  | some (PyVal.dict fl) =>
      Except.ok { st with record := dictSet st.record (some "fields") (PyVal.dict (dictSet fl tagA v)) }
  | some _ => Except.error ConvErr.typeError
  | Option.none => Except.error ConvErr.keyError

/-- Model of `XmlToJsonVisitor.append`: create the per-tag list on first use,
then `self.record["fields"][tag].append(field)`.  A string value under
the key (left there by `visit_controlfield`) has no `.append`, giving
an `AttributeError`; when `visit_record` replaced `fields` by a list,
indexing it with the tag raises a `TypeError`. -/
def appendField (tagA : Option String) (field : PyVal) (st : VState) : Except ConvErr VState :=
  match dictGet st.record (some "fields") with
  | some (PyVal.dict fl) =>
      let fl1 := if (dictGet fl tagA).isNone then dictSet fl tagA (PyVal.list []) else fl
      match dictGet fl1 tagA with
      | some (PyVal.list items) =>
          let r := dictSet st.record (some "fields") (PyVal.dict (dictSet fl1 tagA (PyVal.list (items ++ [field]))))
          Except.ok { st with record := r }
      | some _ => Except.error ConvErr.attributeError
      | Option.none => Except.error ConvErr.keyError
  | some _ => Except.error ConvErr.typeError
  | Option.none => Except.error ConvErr.keyError

mutual

/-- Model of `XmlToJsonVisitor.process`: dispatch on the element's local name to
`visit_record` / `visit_leader` / `visit_controlfield` /
`visit_datafield` / `visit_subfield`; any other name raises the
`ValueError` of `func_not_found` with the local name and namespace. -/
def process (st : VState) (e : Elem) : Except ConvErr VState :=
  match e with
  | .mk nsp tg ats tx cs =>
    if tg = "record" then
      -- visit_record: self.record = {"leader": "", "fields": []}; self.visit(node)
      visitL { st with record := [(some "leader", PyVal.str ""), (some "fields", PyVal.list [])] } cs
    else if tg = "leader" then
      -- visit_leader: self.record["leader"] = node.text
      Except.ok { st with record := dictSet st.record (some "leader") (pyOfText tx) }
    else if tg = "controlfield" then
      -- visit_controlfield: self.append_string(node.get("tag"), node.text)
      appendString ((Elem.mk nsp tg ats tx cs).get "tag") (pyOfText tx) st
    else if tg = "datafield" then
      -- visit_datafield: self.subfields = {}; self.visit(node); build and append the entry
      match visitL { st with subfields := some [] } cs with
      | Except.error err => Except.error err
      | Except.ok st2 =>
        let e' := Elem.mk nsp tg ats tx cs
        let ind1 := replaceSpace ((e'.get "ind1").getD "_")
        let ind2 := replaceSpace ((e'.get "ind2").getD "_")
        let field := PyVal.dict
          [(some "ind1", PyVal.str ind1), (some "ind2", PyVal.str ind2),
           (some "subfields", PyVal.dict (st2.subfields.getD []))]
        appendField (e'.get "tag") field st2
    else if tg = "subfield" then
      -- visit_subfield: self.subfields[code] list, created on first use, appended to
      match st.subfields with
      | Option.none => Except.error ConvErr.attributeError
      | some sf =>
        let code := (Elem.mk nsp tg ats tx cs).get "code"
        let sf1 := if (dictGet sf code).isNone then dictSet sf code (PyVal.list []) else sf
        match dictGet sf1 code with
        | some (PyVal.list items) =>
            Except.ok { st with subfields := some (dictSet sf1 code (PyVal.list (items ++ [pyOfText tx]))) }
        | some _ => Except.error ConvErr.attributeError
        | Option.none => Except.error ConvErr.keyError
    else
      Except.error (ConvErr.unsupported tg nsp)

/-- Model of `XmlToJsonVisitor.visit`: process the children in order, stopping
at the first raised error. -/
def visitL (st : VState) : List Elem → Except ConvErr VState
  | [] => Except.ok st
  | c :: cs =>
    match process st c with
    | Except.error err => Except.error err
    | Except.ok st' => visitL st' cs

end

/-- The visitor's `__init__` state: `{"leader": "", "fields": {}}` and
no `subfields` attribute yet. -/
def initVState : VState :=
  { record := [(some "leader", PyVal.str ""), (some "fields", PyVal.dict [])],
    subfields := Option.none }

/-- Model of `convert_marc21xml_to_json`: a fresh visitor, `visitor.visit(record)`
(which iterates over the root's children — the root's own tag is never
dispatched on), then `get_json_record`. -/
def convert_marc21xml_to_json (root : Elem) : Except ConvErr PyVal :=
  match visitL initVState root.children with
  | Except.error err => Except.error err
  | Except.ok st => Except.ok (PyVal.dict st.record)

/-- The xpath predicate
`datafield[@ind1='i1' and @ind2='i2' and @tag='t']`: an element named
`datafield` (no namespace — lxml's plain-name xpath test matches only
null-namespace elements) whose three attributes equal the references. -/
def dfMatchB (t i1 i2 : String) (e : Elem) : Bool :=
  decide (e.ns = Option.none ∧ e.tag = "datafield" ∧ e.get "tag" = some t ∧
    e.get "ind1" = some i1 ∧ e.get "ind2" = some i2)

/-- The xpath predicate `subfield[@code='c']`. -/
def sfCodeB (c : String) (e : Elem) : Bool :=
  decide (e.ns = Option.none ∧ e.tag = "subfield" ∧ e.get "code" = some c)

mutual

/-- Nodes selected by
`.//datafield[@ind1=… and @ind2=… and @tag=…]//subfield[@code=…]` from
a subtree rooted at `e`: `e` itself is selected when the `inDF` flag
records a matching-datafield proper ancestor and `e` is a matching
subfield; descendants are searched with the flag extended by whether
`e` itself is a matching datafield.  The output is in document
(pre-)order and free of duplicates, as lxml node-sets are. -/
def collectSF (t i1 i2 c : String) (inDF : Bool) : Elem → List Elem
  | Elem.mk nsp tg ats tx cs =>
    (if inDF ∧ sfCodeB c (Elem.mk nsp tg ats tx cs) then [Elem.mk nsp tg ats tx cs] else []) ++
      collectSFL t i1 i2 c (inDF || dfMatchB t i1 i2 (Elem.mk nsp tg ats tx cs)) cs

def collectSFL (t i1 i2 c : String) (inDF : Bool) : List Elem → List Elem
  | [] => []
  | e :: es => collectSF t i1 i2 c inDF e ++ collectSFL t i1 i2 c inDF es

end

/-- Remove the first node (in document pre-order) of the forest
satisfying `p`, returning the forest without it and the removed node.
This models lxml's re-parenting: `parent.append(el)` detaches `el`
from wherever it currently sits. -/
def removeFirstL (p : Elem → Bool) : List Elem → Option (List Elem × Elem)
  | [] => Option.none
  | Elem.mk nsp tg ats tx gs :: cs =>
    if p (Elem.mk nsp tg ats tx gs) then some (cs, Elem.mk nsp tg ats tx gs)
    else
      match removeFirstL p gs with
      | some (gs', d) => some (Elem.mk nsp tg ats tx gs' :: cs, d)
      | Option.none =>
        match removeFirstL p cs with
        | some (cs', d) => some (Elem.mk nsp tg ats tx gs :: cs', d)
        | Option.none => Option.none

mutual

/-- Model of `for leader in self._etree.iter("leader"): leader.text = value` —
set the text of every (descendant-or-self) node named `leader`. -/
def setLeaderText (v : String) : Elem → Elem
  | Elem.mk nsp tg ats tx cs =>
    Elem.mk nsp tg ats (if tg = "leader" ∧ nsp = Option.none then some v else tx)
      (setLeaderTextL v cs)

def setLeaderTextL (v : String) : List Elem → List Elem
  | [] => []
  | c :: cs => setLeaderText v c :: setLeaderTextL v cs

end

/-- A subfield element as created by the emplace operations:
`etree.Element("subfield", code=code)` with `subfield.text = value`. -/
def sfElem (c v : String) : Elem :=
  Elem.mk Option.none "subfield" [("code", c)] (some v) []

/-- A datafield element as created by the emplace operations:
`etree.Element("datafield", tag=tag, ind1=ind1, ind2=ind2)` with one
subfield child appended. -/
def dfElem (t i1 i2 c v : String) : Elem :=
  Elem.mk Option.none "datafield" [("tag", t), ("ind1", i1), ("ind2", i2)] Option.none
    [sfElem c v]

/-- The `Marc21Metadata` object: `_xml` string cache, `_json` dict cache, `_etree`
canonical tree. -/
structure Marc21Metadata : Type where
  _xml : String
  _json : PyVal
  _etree : Elem

/-- Model of `Marc21Metadata.__init__`: a `record` root (the `xmlns=…`,
`type="Bibliographic"` keywords become attributes) holding one `leader`
child with the placeholder text. -/
def initMetadata : Marc21Metadata :=
  { _xml := "",
    _json := PyVal.dict [],
    _etree := Elem.mk Option.none "record"
      [("xmlns", "http://www.loc.gov/MARC21/slim"), ("type", "Bibliographic")] Option.none
      [Elem.mk Option.none "leader" [] (some "00000nam a2200000zca4500") []] }

namespace Marc21Metadata

/-- The `json` property getter: recompute
`{"metadata": convert_marc21xml_to_json(self._etree)}`, store it in
`self._json` and return it.  The conversion's exception propagates. -/
def jsonGetter (m : Marc21Metadata) : Except ConvErr (PyVal × Marc21Metadata) :=
  match convert_marc21xml_to_json m._etree with
  | Except.error err => Except.error err
  | Except.ok r =>
      let j := PyVal.dict [(some "metadata", r)]
      Except.ok (j, { m with _json := j })

/-- Setter-level errors: `TypeError` for a wrongly-typed argument,
the lxml parse error for malformed XML. -/
inductive SetErr : Type where
  | typeMismatch : SetErr
  | parseError : SetErr
deriving DecidableEq, Repr

/-- The `json` property setter: reject non-dicts with a `TypeError`,
otherwise store the value in `self._json` (and nothing else). -/
def setJson (j : PyVal) (m : Marc21Metadata) : Option SetErr × Marc21Metadata :=
  match j with
  | PyVal.dict l => (Option.none, { m with _json := PyVal.dict l })
  | _ => (some SetErr.typeMismatch, m)

/-- The `xml` property setter, parameterized by the external lxml
parser: reject non-strings with a `TypeError` before any parsing;
parse, propagating the parse failure before any assignment; on success
assign `self._etree` and `self._xml`. -/
def setXml (parse : String → Option Elem) (v : PyVal) (m : Marc21Metadata) :
    Option SetErr × Marc21Metadata :=
  match v with
  | PyVal.str s =>
    match parse s with
    | some t => (Option.none, { m with _etree := t, _xml := s })
    | Option.none => (some SetErr.parseError, m)
  | _ => (some SetErr.typeMismatch, m)

/-- The `xml` property getter, parameterized by the external lxml
serializer (`etree.tostring(..., pretty_print=True)`): recompute the
string from the tree, cache it in `_xml`, return it. -/
def xmlGetter (ser : Elem → String) (m : Marc21Metadata) : String × Marc21Metadata :=
  (ser m._etree, { m with _xml := ser m._etree })

/-- Model of `Marc21Metadata.contains(ref_df, ref_sf)`: run the xpath, then
`element and len(element) > 0 and element[0].text == ref_sf["value"]` —
only the FIRST node of the xpath node-set has its text compared. -/
def contains (m : Marc21Metadata) (t i1 i2 c v : String) : Bool :=
  match collectSFL t i1 i2 c false m._etree.children with
  | [] => false
  | s :: _ => decide (s.text = some v)

/-- Model of `Marc21Metadata.emplace_leader(value)`. -/
def emplace_leader (v : String) (m : Marc21Metadata) : Marc21Metadata :=
  { m with _etree := setLeaderText v m._etree }

/-- Model of `Marc21Metadata.emplace_controlfield(tag, value)`. -/
def emplace_controlfield (t v : String) (m : Marc21Metadata) : Marc21Metadata :=
  { m with _etree := m._etree.appendChild (Elem.mk Option.none "controlfield" [("tag", t)] (some v) []) }

/-- Model of `Marc21Metadata.emplace_field(tag, ind1, ind2, code, value)`:
unconditionally append a fresh `datafield` (with one `subfield` child)
under the root. -/
def emplace_field (t i1 i2 c v : String) (m : Marc21Metadata) : Marc21Metadata :=
  { m with _etree := m._etree.appendChild (dfElem t i1 i2 c v) }

/-- Model of `Marc21Metadata.emplace_unique_field(tag, ind1, ind2, code, value)`:
find the matching datafields; find ALL subfields with the given code
anywhere in the document (the value plays no role in the query); if
none exist, append a new subfield to the first matching datafield (or
to a fresh one) and `self._etree.append` it — which, for an existing
datafield, detaches it from its current position and re-appends it as
the root's last child. -/
def emplace_unique_field (t i1 i2 c v : String) (m : Marc21Metadata) : Marc21Metadata :=
  let dfs := m._etree.descendants.filter (dfMatchB t i1 i2)
  let sfs := m._etree.descendants.filter (sfCodeB c)
  match dfs with
  | [] =>
    if sfs.isEmpty then
      { m with _etree := m._etree.appendChild (dfElem t i1 i2 c v) }
    else m
  | _ :: _ =>
    if sfs.isEmpty then
      match removeFirstL (dfMatchB t i1 i2) m._etree.children with
      | some (cs', d) =>
        { m with _etree := m._etree.withChildren (cs' ++ [d.appendChild (sfElem c v)]) }
      | Option.none => m
    else m

end Marc21Metadata

/-- The public mutation API (constructor plus emplace operations), used
to quantify over "documents constructed through the public API". -/
inductive Op : Type where
  | field (t i1 i2 c v : String) : Op
  | uniqueField (t i1 i2 c v : String) : Op
  | controlfield (t v : String) : Op
  | leaderOp (v : String) : Op

def applyOp (m : Marc21Metadata) : Op → Marc21Metadata
  | Op.field t i1 i2 c v => Marc21Metadata.emplace_field t i1 i2 c v m
  | Op.uniqueField t i1 i2 c v => Marc21Metadata.emplace_unique_field t i1 i2 c v m
  | Op.controlfield t v => Marc21Metadata.emplace_controlfield t v m
  | Op.leaderOp v => Marc21Metadata.emplace_leader v m

/-- A document built through the public API: the constructor followed
by a sequence of mutation operations. -/
def build (ops : List Op) : Marc21Metadata :=
  ops.foldl applyOp initMetadata

/-- Modelled from the spec: "true iff a `datafield` matching
`field_ref = {tag, ind1, ind2}` exists containing a `subfield`
matching `subfield_ref = {code}` whose text equals
`subfield_ref.value`" — an existential over all matching datafields
and all subfields they contain, with no first-match restriction. -/
def containsExistsB (root : Elem) (t i1 i2 c v : String) : Bool :=
  root.descendants.any (fun d => dfMatchB t i1 i2 d &&
    d.descendants.any (fun s => sfCodeB c s && decide (s.text = some v)))

/-! ### Basic lemmas about the dictionary and tree helpers -/

theorem dictGet_dictSet_self (l : List (Option String × PyVal)) (k : Option String) (v : PyVal) :
    dictGet (dictSet l k v) k = some v := by
  induction l with
  | nil => simp [dictGet, dictSet]
  | cons p rest ih =>
    obtain ⟨k', v'⟩ := p
    by_cases h : k' = k
    · simp [dictGet, dictSet, h]
    · simpa [dictGet, dictSet, h] using ih

theorem dictGet_dictSet_ne (l : List (Option String × PyVal)) (k k' : Option String) (v : PyVal)
    (h : k' ≠ k) : dictGet (dictSet l k v) k' = dictGet l k' := by
  have hk : k ≠ k' := Ne.symm h
  induction l with
  | nil => simp [dictGet, dictSet, List.find?, hk]
  | cons p rest ih =>
    obtain ⟨k₀, v₀⟩ := p
    by_cases h₀ : k₀ = k
    · subst h₀
      simp [dictGet, dictSet, List.find?, hk]
    · by_cases h₁ : k₀ = k'
      · subst h₁
        simp [dictGet, dictSet, List.find?, h₀]
      · simp only [dictSet, if_neg h₀]
        simpa [dictGet, List.find?, h₁] using ih

theorem mem_dictSet (l : List (Option String × PyVal)) (k k' : Option String) (v v' : PyVal)
    (h : (k', v') ∈ dictSet l k v) : (k' = k ∧ v' = v) ∨ (k', v') ∈ l := by
  induction l with
  | nil =>
    simp [dictSet] at h
    exact Or.inl h
  | cons p rest ih =>
    obtain ⟨k₀, v₀⟩ := p
    by_cases h₀ : k₀ = k
    · have hd : dictSet ((k₀, v₀) :: rest) k v = (k, v) :: rest := by simp [dictSet, h₀]
      rw [hd] at h
      rcases List.mem_cons.mp h with hh | hh
      · exact Or.inl ⟨congrArg Prod.fst hh, congrArg Prod.snd hh⟩
      · exact Or.inr (List.mem_cons_of_mem _ hh)
    · have hd : dictSet ((k₀, v₀) :: rest) k v = (k₀, v₀) :: dictSet rest k v := by
        simp [dictSet, h₀]
      rw [hd] at h
      rcases List.mem_cons.mp h with hh | hh
      · exact Or.inr (List.mem_cons.mpr (Or.inl hh))
      · rcases ih hh with h' | h'
        · exact Or.inl h'
        · exact Or.inr (List.mem_cons_of_mem _ h')

theorem dictGet_mem (l : List (Option String × PyVal)) (k : Option String) (v : PyVal)
    (h : dictGet l k = some v) : (k, v) ∈ l := by
  induction l with
  | nil => simp [dictGet] at h
  | cons p rest ih =>
    obtain ⟨k₀, v₀⟩ := p
    by_cases h₀ : k₀ = k
    · subst h₀
      simp [dictGet, List.find?] at h
      simp [h]
    · simp only [dictGet, List.find?, decide_eq_false h₀] at h ih
      exact List.mem_cons_of_mem _ (ih h)

theorem descendantsList_append (xs ys : List Elem) :
    descendantsList (xs ++ ys) = descendantsList xs ++ descendantsList ys := by
  induction xs with
  | nil => simp [descendantsList]
  | cons c cs ih => simp [descendantsList, ih]

theorem descendants_mk (nsp : Option String) (tg : String) (ats : List (String × String))
    (tx : Option String) (cs : List Elem) :
    (Elem.mk nsp tg ats tx cs).descendants = descendantsList cs := by
  simp [Elem.descendants]

theorem descendants_withChildren (e : Elem) (cs : List Elem) :
    (e.withChildren cs).descendants = descendantsList cs := by
  cases e
  simp [Elem.withChildren, Elem.descendants]

theorem descendants_appendChild (e : Elem) (c : Elem) :
    (e.appendChild c).descendants = e.descendants ++ (c :: c.descendants) := by
  cases e with
  | mk n t a x cs =>
    simp [Elem.appendChild, Elem.withChildren, Elem.children, Elem.descendants,
      descendantsList_append, descendantsList]

theorem children_appendChild (e x : Elem) : (e.appendChild x).children = e.children ++ [x] := by
  cases e
  rfl

theorem children_withChildren (e : Elem) (cs : List Elem) : (e.withChildren cs).children = cs := by
  cases e
  rfl

theorem dictSet_dictSet (l : List (Option String × PyVal)) (k : Option String) (v w : PyVal) :
    dictSet (dictSet l k v) k w = dictSet l k w := by
  induction l with
  | nil => simp [dictSet]
  | cons p rest ih =>
    obtain ⟨k₀, v₀⟩ := p
    by_cases h₀ : k₀ = k
    · simp [dictSet, h₀]
    · simp [dictSet, h₀, ih]

/-! ### Computation of the visitor on emplaced datafields -/

/-- The field-entry dict the visitor produces for a datafield created
by `emplace_field t i1 i2 c v` (spec side, for comparison). -/
def fieldPy (i1 i2 c v : String) : PyVal :=
  PyVal.dict [(some "ind1", PyVal.str (replaceSpace i1)),
    (some "ind2", PyVal.str (replaceSpace i2)),
    (some "subfields", PyVal.dict [(some c, PyVal.list [PyVal.str v])])]

theorem process_dfElem (st : VState) (t i1 i2 c v : String) :
    process st (dfElem t i1 i2 c v) =
      appendField (some t) (fieldPy i1 i2 c v)
        { st with subfields := some [(some c, PyVal.list [PyVal.str v])] } := by
  simp [process, visitL, dfElem, sfElem, Elem.get, Elem.attrs, dictGet, dictSet,
    List.find?, pyOfText, fieldPy]

/-- Shape of the state invariantly reached while folding over the
root's children of an API-built document: leader value plus a
dict-valued fields entry. -/
def stOf (ldr : PyVal) (fl : List (Option String × PyVal))
    (sf : Option (List (Option String × PyVal))) : VState :=
  { record := [(some "leader", ldr), (some "fields", PyVal.dict fl)], subfields := sf }

theorem appendField_stOf_none (ldr : PyVal) (fl : List (Option String × PyVal))
    (k : Option String) (f : PyVal) (sf : Option (List (Option String × PyVal)))
    (h : dictGet fl k = Option.none) :
    appendField k f (stOf ldr fl sf) =
      Except.ok (stOf ldr (dictSet fl k (PyVal.list [f])) sf) := by
  have h' := h
  have g' := dictGet_dictSet_self fl k (PyVal.list [])
  unfold dictGet at h' g'
  simp only [appendField, stOf, List.nil_append]
  simp [dictGet, dictSet, List.find?, h', g', dictSet_dictSet]

theorem appendField_stOf_list (ldr : PyVal) (fl : List (Option String × PyVal))
    (k : Option String) (f : PyVal) (items : List PyVal)
    (sf : Option (List (Option String × PyVal)))
    (h : dictGet fl k = some (PyVal.list items)) :
    appendField k f (stOf ldr fl sf) =
      Except.ok (stOf ldr (dictSet fl k (PyVal.list (items ++ [f]))) sf) := by
  have h' := h
  unfold dictGet at h'
  simp [appendField, stOf, dictGet, dictSet, List.find?, h']

/-! ### Claim C4: the json projection is a pure function of the tree -/

/-- C4: deriving the nested-mapping projection twice without any
intervening mutation yields identical mappings: a successful `json`
read `m.jsonGetter = ok (v, m')` is repeatable — reading again from
the returned document state gives the same mapping `v` and the same
state `m'`, because the projection is recomputed by a fresh traversal
of the unchanged backing tree. -/
theorem jsonGetter_deterministic (m : Marc21Metadata) (v : PyVal) (m' : Marc21Metadata)
    (h : m.jsonGetter = Except.ok (v, m')) : m'.jsonGetter = Except.ok (v, m') := by
  cases m with
  | mk x j e =>
    unfold Marc21Metadata.jsonGetter at h ⊢
    cases hc : convert_marc21xml_to_json e with
    | error err => simp [hc] at h
    | ok r =>
      simp only [hc] at h
      simp only [Except.ok.injEq, Prod.mk.injEq] at h
      obtain ⟨hv, hm⟩ := h
      rw [← hm]
      simp [hc, hv]

/-- Witness for C4 at the freshly constructed document. -/
theorem jsonGetter_deterministic_witness :
    Marc21Metadata.jsonGetter
      (Marc21Metadata.mk ""
        (PyVal.dict [(some "metadata", PyVal.dict [(some "leader", PyVal.str "00000nam a2200000zca4500"),
          (some "fields", PyVal.dict [])])]) initMetadata._etree) =
      Except.ok
        (PyVal.dict [(some "metadata", PyVal.dict [(some "leader", PyVal.str "00000nam a2200000zca4500"),
          (some "fields", PyVal.dict [])])],
        Marc21Metadata.mk ""
          (PyVal.dict [(some "metadata", PyVal.dict [(some "leader", PyVal.str "00000nam a2200000zca4500"),
            (some "fields", PyVal.dict [])])]) initMetadata._etree) :=
  jsonGetter_deterministic initMetadata _ _ rfl

/-! ### Claim C8: the xml setter -/

/-- C8: the xml setter rejects a non-string argument with a
`TypeError` without attempting any parse or coercion, rejects a string
the parser cannot handle with a parse error, and in both failure cases
returns the document unchanged (the assignments happen only after a
successful parse); on success the backing tree is wholesale replaced
by the parsed tree and the xml cache by the input string. -/
theorem setXml_behavior (parse : String → Option Elem) (v : PyVal) (m : Marc21Metadata) :
    ((∀ s, v ≠ PyVal.str s) →
      Marc21Metadata.setXml parse v m = (some Marc21Metadata.SetErr.typeMismatch, m)) ∧
    (∀ s, v = PyVal.str s → parse s = Option.none →
      Marc21Metadata.setXml parse v m = (some Marc21Metadata.SetErr.parseError, m)) ∧
    (∀ s tr, v = PyVal.str s → parse s = some tr →
      Marc21Metadata.setXml parse v m = (Option.none, { m with _etree := tr, _xml := s })) := by
  refine ⟨?_, ?_, ?_⟩
  · intro hns
    cases v with
    | str s => exact absurd rfl (hns s)
    | none => rfl
    | list l => rfl
    | dict l => rfl
  · intro s hv hp
    subst hv
    simp [Marc21Metadata.setXml, hp]
  · intro s tr hv hp
    subst hv
    simp [Marc21Metadata.setXml, hp]

/-- Witness for C8: a dict argument is rejected as a type mismatch and
the document is returned unchanged. -/
theorem setXml_behavior_witness :
    Marc21Metadata.setXml (fun _ => Option.none) (PyVal.dict []) initMetadata =
      (some Marc21Metadata.SetErr.typeMismatch, initMetadata) :=
  (setXml_behavior (fun _ => Option.none) (PyVal.dict []) initMetadata).1
    (fun _ h => PyVal.noConfusion h)

/-! ### Claim C9: the json setter has no observable effect -/

/-- C9: assigning any dict through the json setter succeeds but leaves
the backing tree unchanged, leaves every subsequent json read
identical to what it would have been (the getter re-derives the
projection from the tree, overwriting the stored value), and leaves
the xml output unchanged. -/
theorem setJson_no_observable_effect (m : Marc21Metadata)
    (l : List (Option String × PyVal)) (ser : Elem → String) :
    (Marc21Metadata.setJson (PyVal.dict l) m).1 = Option.none ∧
    (Marc21Metadata.setJson (PyVal.dict l) m).2._etree = m._etree ∧
    Marc21Metadata.jsonGetter (Marc21Metadata.setJson (PyVal.dict l) m).2 =
      Marc21Metadata.jsonGetter m ∧
    (Marc21Metadata.xmlGetter ser (Marc21Metadata.setJson (PyVal.dict l) m).2).1 =
      (Marc21Metadata.xmlGetter ser m).1 := by
  cases m with
  | mk x j e => exact ⟨rfl, rfl, rfl, rfl⟩

/-! ### Claim C1: the containment query -/

/-- A one-field document: `add_field(tag="245", ind1="1", ind2="0",
code="a", value="X")` on a fresh metadata object. -/
def m1ex : Marc21Metadata :=
  Marc21Metadata.emplace_field "245" "1" "0" "a" "X" initMetadata

/-- The two-field document used to refute the purely existential
reading of `contains`: the same tag/indicators/code added twice, first
with text "Z", then with text "X". -/
def m2ex : Marc21Metadata :=
  Marc21Metadata.emplace_field "245" "1" "0" "a" "X"
    (Marc21Metadata.emplace_field "245" "1" "0" "a" "Z" initMetadata)

mutual

/-- Every node collected by the xpath walk is a matching subfield
sitting below the subtree root, and — unless the walk entered with the
inside-a-matching-datafield flag set — below some matching datafield. -/
theorem mem_collectSF (t i1 i2 c : String) (inDF : Bool) (e : Elem) (s : Elem)
    (h : s ∈ collectSF t i1 i2 c inDF e) :
    sfCodeB c s = true ∧ (s = e ∨ s ∈ e.descendants) ∧
      (inDF = true ∨ ∃ d, (d = e ∨ d ∈ e.descendants) ∧ dfMatchB t i1 i2 d = true ∧
        s ∈ d.descendants) := by
  cases e with
  | mk nsp tg ats tx cs =>
    rw [collectSF] at h
    rcases List.mem_append.mp h with h1 | h2
    · by_cases hc : inDF ∧ sfCodeB c (Elem.mk nsp tg ats tx cs) = true
      · rw [if_pos hc] at h1
        have hse : s = Elem.mk nsp tg ats tx cs := by simpa using h1
        subst hse
        exact ⟨hc.2, Or.inl rfl, Or.inl (by simpa using hc.1)⟩
      · rw [if_neg hc] at h1
        simp at h1
    · obtain ⟨hsf, hmem, hrest⟩ := mem_collectSFL t i1 i2 c
        (inDF || dfMatchB t i1 i2 (Elem.mk nsp tg ats tx cs)) cs s h2
      refine ⟨hsf, Or.inr (by simpa [Elem.descendants] using hmem), ?_⟩
      rcases hrest with hfl | ⟨d, hd1, hd2, hd3⟩
      · rcases (by simpa using hfl : inDF = true ∨ dfMatchB t i1 i2 (Elem.mk nsp tg ats tx cs) = true) with hor | hor
        · exact Or.inl hor
        · exact Or.inr ⟨Elem.mk nsp tg ats tx cs, Or.inl rfl, hor,
            by simpa [Elem.descendants] using hmem⟩
      · exact Or.inr ⟨d, Or.inr (by simpa [Elem.descendants] using hd1), hd2, hd3⟩

/-- List version of `mem_collectSF` over a forest of children. -/
theorem mem_collectSFL (t i1 i2 c : String) (inDF : Bool) (cs : List Elem) (s : Elem)
    (h : s ∈ collectSFL t i1 i2 c inDF cs) :
    sfCodeB c s = true ∧ s ∈ descendantsList cs ∧
      (inDF = true ∨ ∃ d, d ∈ descendantsList cs ∧ dfMatchB t i1 i2 d = true ∧
        s ∈ d.descendants) := by
  cases cs with
  | nil => simp [collectSFL] at h
  | cons e es =>
    rw [collectSFL] at h
    rcases List.mem_append.mp h with h1 | h2
    · obtain ⟨hsf, hmem, hrest⟩ := mem_collectSF t i1 i2 c inDF e s h1
      refine ⟨hsf, ?_, ?_⟩
      · rcases hmem with he | he
        · simp [descendantsList, he]
        · simp [descendantsList, he]
      · rcases hrest with hfl | ⟨d, hd1, hd2, hd3⟩
        · exact Or.inl hfl
        · refine Or.inr ⟨d, ?_, hd2, hd3⟩
          rcases hd1 with hd | hd
          · simp [descendantsList, hd]
          · simp [descendantsList, hd]
    · obtain ⟨hsf, hmem, hrest⟩ := mem_collectSFL t i1 i2 c inDF es s h2
      refine ⟨hsf, by simp [descendantsList, hmem], ?_⟩
      rcases hrest with hfl | ⟨d, hd1, hd2, hd3⟩
      · exact Or.inl hfl
      · exact Or.inr ⟨d, by simp [descendantsList, hd1], hd2, hd3⟩

end

/-- C1 (amended): `contains` is sound for the existential reading —
whenever it returns true, some matching datafield does contain a
matching subfield with the given text — but it is NOT the existential
check itself: it returns true exactly when the FIRST subfield (in
document order) selected by the xpath has text equal to the reference
value.  (The add_field example of the claim is unaffected: with a
single matching subfield, first-match and existential semantics
agree.) -/
theorem contains_characterization (m : Marc21Metadata) (t i1 i2 c v : String) :
    (Marc21Metadata.contains m t i1 i2 c v = true → containsExistsB m._etree t i1 i2 c v = true) ∧
    (Marc21Metadata.contains m t i1 i2 c v = true ↔
      ∃ s, (collectSFL t i1 i2 c false m._etree.children).head? = some s ∧ s.text = some v) := by
  have hdesc : m._etree.descendants = descendantsList m._etree.children := by
    cases m._etree with
    | mk nsp tg ats tx cs => simp [Elem.descendants, Elem.children]
  constructor
  · intro h
    unfold Marc21Metadata.contains at h
    cases hls : collectSFL t i1 i2 c false m._etree.children with
    | nil => rw [hls] at h; cases h
    | cons s rest =>
      rw [hls] at h
      have hmem : s ∈ collectSFL t i1 i2 c false m._etree.children := by
        rw [hls]; exact List.mem_cons_self _ _
      obtain ⟨hsf, hmem', hrest⟩ := mem_collectSFL t i1 i2 c false m._etree.children s hmem
      rcases hrest with hfl | ⟨d, hd1, hd2, hd3⟩
      · cases hfl
      · unfold containsExistsB
        rw [List.any_eq_true]
        refine ⟨d, by rw [hdesc]; exact hd1, ?_⟩
        rw [Bool.and_eq_true]
        refine ⟨hd2, List.any_eq_true.mpr ⟨s, hd3, ?_⟩⟩
        rw [Bool.and_eq_true]
        exact ⟨hsf, by simpa using h⟩
  · unfold Marc21Metadata.contains
    cases hls : collectSFL t i1 i2 c false m._etree.children with
    | nil => simp
    | cons s rest => simp

/-- Witness for the soundness direction of C1 (amended), at the
claim's own add_field example. -/
theorem contains_characterization_witness :
    containsExistsB m1ex._etree "245" "1" "0" "a" "X" = true :=
  (contains_characterization m1ex "245" "1" "0" "a" "X").1 rfl

/-- Counterexample to C1 as stated: a subfield with code "a" and text
"X" exists under a datafield matching (245, 1, 0) — the existential
spec is true — yet `contains` returns false, because the xpath
node-set starts with the earlier "Z" subfield and only the first
node's text is compared. -/
theorem contains_spec_counterexample :
    containsExistsB m2ex._etree "245" "1" "0" "a" "X" = true ∧
    Marc21Metadata.contains m2ex "245" "1" "0" "a" "X" = false :=
  ⟨rfl, rfl⟩

/-! ### Claim C3: document-wide uniqueness check of emplace_unique_field -/

/-- A document holding one subfield with code "a" and text "Z" under
tag 100. -/
def m3ex : Marc21Metadata :=
  Marc21Metadata.emplace_field "100" " " " " "a" "Z" initMetadata

/-- Counterexample to C3 as stated: no subfield with code "a" AND text
"X" exists anywhere in the document, so the claim predicts that
`add_unique_field(245, 1, 0, a, X)` inserts — but the document is left
completely unchanged, because the uniqueness query matches on the code
alone and the code-"a" subfield under tag 100 suppresses the
insertion. -/
theorem emplace_unique_field_value_counterexample :
    m3ex._etree.descendants.filter (fun s => sfCodeB "a" s && decide (s.text = some "X")) = [] ∧
    Marc21Metadata.emplace_unique_field "245" "1" "0" "a" "X" m3ex = m3ex :=
  ⟨rfl, rfl⟩

/-! ### Removal lemmas for the re-parenting append -/

/-- When the pre-order removal finds nothing, no node of the forest
satisfies the predicate. -/
theorem removeFirstL_none (p : Elem → Bool) :
    ∀ cs : List Elem, removeFirstL p cs = Option.none → ∀ e ∈ descendantsList cs, p e = false
  | [] => by
    intro _ e he
    simp [descendantsList] at he
  | Elem.mk nsp tg ats tx gs :: cs => by
    intro h e he
    rw [removeFirstL] at h
    by_cases hp : p (Elem.mk nsp tg ats tx gs) = true
    · rw [if_pos hp] at h
      exact absurd h (by simp)
    · rw [if_neg hp] at h
      cases hg : removeFirstL p gs with
      | some pr =>
        obtain ⟨gs', d⟩ := pr
        rw [hg] at h
        simp at h
      | none =>
        rw [hg] at h
        cases hc : removeFirstL p cs with
        | some pr =>
          obtain ⟨cs', d⟩ := pr
          rw [hc] at h
          simp at h
        | none =>
          rw [descendantsList] at he
          rcases List.mem_cons.mp he with he1 | he2
          · subst he1
            simpa using hp
          · rw [descendants_mk] at he2
            rcases List.mem_append.mp he2 with he3 | he3
            · exact removeFirstL_none p gs hg e he3
            · exact removeFirstL_none p cs hc e he3

/-- Removal decomposition: for any predicate `q` that ignores
children, the `q`-count over the forest splits into the remainder plus
the removed subtree, and the removed node satisfies `p`. -/
theorem removeFirstL_countP (p q : Elem → Bool)
    (hq : ∀ nsp tg ats tx cs1 cs2,
      q (Elem.mk nsp tg ats tx cs1) = q (Elem.mk nsp tg ats tx cs2)) :
    ∀ cs cs' d, removeFirstL p cs = some (cs', d) →
      p d = true ∧ (descendantsList cs).countP q =
        (descendantsList cs').countP q + (d :: d.descendants).countP q
  | [] => by
    intro cs' d h
    simp [removeFirstL] at h
  | Elem.mk nsp tg ats tx gs :: cs => by
    intro cs' d h
    rw [removeFirstL] at h
    by_cases hp : p (Elem.mk nsp tg ats tx gs) = true
    · rw [if_pos hp] at h
      simp only [Option.some.injEq, Prod.mk.injEq] at h
      obtain ⟨h1, h2⟩ := h
      subst h1
      subst h2
      refine ⟨hp, ?_⟩
      simp only [descendantsList, descendants_mk, List.countP_cons, List.countP_append]
      omega
    · rw [if_neg hp] at h
      cases hg : removeFirstL p gs with
      | some pr =>
        obtain ⟨gs', d0⟩ := pr
        rw [hg] at h
        simp only [Option.some.injEq, Prod.mk.injEq] at h
        obtain ⟨h1, h2⟩ := h
        subst h1
        subst h2
        obtain ⟨hpd, hcount⟩ := removeFirstL_countP p q hq gs gs' d0 hg
        refine ⟨hpd, ?_⟩
        simp only [List.countP_cons] at hcount
        simp only [descendantsList, descendants_mk, List.countP_cons, List.countP_append]
        rw [hq nsp tg ats tx gs gs']
        omega
      | none =>
        rw [hg] at h
        cases hc : removeFirstL p cs with
        | some pr =>
          obtain ⟨cs2, d0⟩ := pr
          rw [hc] at h
          simp only [Option.some.injEq, Prod.mk.injEq] at h
          obtain ⟨h1, h2⟩ := h
          subst h1
          subst h2
          obtain ⟨hpd, hcount⟩ := removeFirstL_countP p q hq cs cs2 d0 hc
          refine ⟨hpd, ?_⟩
          simp only [List.countP_cons] at hcount
          simp only [descendantsList, descendants_mk, List.countP_cons, List.countP_append]
          omega
        | none =>
          rw [hc] at h
          simp at h

/-- Predicates built from ns, tag and attributes ignore children. -/
theorem sfCodeB_withChildren (c : String) (e : Elem) (cs : List Elem) :
    sfCodeB c (e.withChildren cs) = sfCodeB c e := by
  cases e
  rfl

theorem sfCodeB_mk_blind (c : String) (nsp : Option String) (tg : String)
    (ats : List (String × String)) (tx : Option String) (cs1 cs2 : List Elem) :
    sfCodeB c (Elem.mk nsp tg ats tx cs1) = sfCodeB c (Elem.mk nsp tg ats tx cs2) := rfl

theorem sfCodeB_sfElem (c v : String) : sfCodeB c (sfElem c v) = true := by
  simp [sfCodeB, sfElem, Elem.get, Elem.ns, Elem.tag, Elem.attrs, List.find?]

theorem sfCodeB_dfElem (c' t i1 i2 c v : String) : sfCodeB c' (dfElem t i1 i2 c v) = false := by
  simp [sfCodeB, dfElem, Elem.tag, Elem.ns]

/-- C3 (amended): the uniqueness query of `add_unique_field` is
document-wide and matches on the subfield CODE alone — the value
plays no part.  If any subfield with the given code exists anywhere,
the document is returned completely unchanged (even when its value
differs from the one being inserted, and regardless of which datafield
holds it); if none exists, after the call exactly one subfield with
that code exists, namely a freshly created one carrying the given
value. -/
theorem emplace_unique_field_code_scope (m : Marc21Metadata) (t i1 i2 c v : String) :
    (m._etree.descendants.filter (sfCodeB c) ≠ [] →
      Marc21Metadata.emplace_unique_field t i1 i2 c v m = m) ∧
    (m._etree.descendants.filter (sfCodeB c) = [] →
      (Marc21Metadata.emplace_unique_field t i1 i2 c v m)._etree.descendants.filter (sfCodeB c) =
        [sfElem c v]) := by
  constructor
  · intro hne
    have hie : (m._etree.descendants.filter (sfCodeB c)).isEmpty = false := by
      cases hh : m._etree.descendants.filter (sfCodeB c) with
      | nil => exact absurd hh hne
      | cons a l => rfl
    unfold Marc21Metadata.emplace_unique_field
    cases hdfs : m._etree.descendants.filter (dfMatchB t i1 i2) with
    | nil => simp [hie]
    | cons a l => simp [hie]
  · intro hem
    have hie : (m._etree.descendants.filter (sfCodeB c)).isEmpty = true := by
      rw [hem]; rfl
    cases hdfs : m._etree.descendants.filter (dfMatchB t i1 i2) with
    | nil =>
      have hres : Marc21Metadata.emplace_unique_field t i1 i2 c v m =
          { m with _etree := m._etree.appendChild (dfElem t i1 i2 c v) } := by
        unfold Marc21Metadata.emplace_unique_field
        simp [hdfs, hie]
      rw [hres]
      have hproj : ({ m with _etree := m._etree.appendChild (dfElem t i1 i2 c v) } :
          Marc21Metadata)._etree = m._etree.appendChild (dfElem t i1 i2 c v) := rfl
      rw [hproj, descendants_appendChild, List.filter_append, hem]
      have hdd : (dfElem t i1 i2 c v).descendants = [sfElem c v] := by
        simp [dfElem, Elem.descendants, descendantsList, sfElem]
      rw [hdd]
      simp [List.filter_cons, sfCodeB_dfElem, sfCodeB_sfElem]
    | cons a l =>
      have hmem : a ∈ m._etree.descendants.filter (dfMatchB t i1 i2) := by
        rw [hdfs]
        exact List.mem_cons_self _ _
      obtain ⟨hamem, hap⟩ := List.mem_filter.mp hmem
      have hdesc : m._etree.descendants = descendantsList m._etree.children := by
        cases m._etree
        simp [Elem.descendants, Elem.children]
      cases hrem : removeFirstL (dfMatchB t i1 i2) m._etree.children with
      | none =>
        have hfalse := removeFirstL_none (dfMatchB t i1 i2) m._etree.children hrem a
          (by rw [← hdesc]; exact hamem)
        rw [hfalse] at hap
        cases hap
      | some pr =>
        obtain ⟨cs', d⟩ := pr
        have hres : Marc21Metadata.emplace_unique_field t i1 i2 c v m =
            { m with _etree := m._etree.withChildren (cs' ++ [d.appendChild (sfElem c v)]) } := by
          unfold Marc21Metadata.emplace_unique_field
          simp [hdfs, hie, hrem]
        rw [hres]
        obtain ⟨hpd, hcount⟩ := removeFirstL_countP (dfMatchB t i1 i2) (sfCodeB c)
          (sfCodeB_mk_blind c) m._etree.children cs' d hrem
        have h0 : (descendantsList m._etree.children).countP (sfCodeB c) = 0 :=
          List.countP_eq_zero.mpr (fun e he =>
            (List.filter_eq_nil_iff.mp hem) e (by rw [hdesc]; exact he))
        have h1 : (descendantsList cs').countP (sfCodeB c) = 0 := by omega
        have h2 : ((d :: d.descendants)).countP (sfCodeB c) = 0 := by omega
        rw [List.countP_cons] at h2
        have hdd0 : (d.descendants).countP (sfCodeB c) = 0 := by omega
        have hqd : sfCodeB c d = false := by
          by_cases hq : sfCodeB c d = true
          · rw [hq] at h2
            simp at h2
          · simpa using hq
        have hproj : ({ m with _etree := m._etree.withChildren (cs' ++ [d.appendChild (sfElem c v)]) } :
            Marc21Metadata)._etree = m._etree.withChildren (cs' ++ [d.appendChild (sfElem c v)]) := rfl
        rw [hproj, descendants_withChildren, descendantsList_append, List.filter_append]
        have hcs' : (descendantsList cs').filter (sfCodeB c) = [] :=
          List.filter_eq_nil_iff.mpr (fun e he => by
            have := List.countP_eq_zero.mp h1 e he
            exact this)
        rw [hcs']
        have hsingle : descendantsList [d.appendChild (sfElem c v)] =
            (d.appendChild (sfElem c v)) :: ((d.appendChild (sfElem c v)).descendants) := by
          simp [descendantsList]
        rw [hsingle, List.filter_cons]
        have hqd' : sfCodeB c (d.appendChild (sfElem c v)) = false := by
          rw [Elem.appendChild, sfCodeB_withChildren]
          exact hqd
        rw [descendants_appendChild]
        have hfd : (d.descendants).filter (sfCodeB c) = [] :=
          List.filter_eq_nil_iff.mpr (fun e he => by
            have := List.countP_eq_zero.mp hdd0 e he
            exact this)
        simp [hqd', List.filter_append, hfd, List.filter_cons, sfCodeB_sfElem,
          show (sfElem c v).descendants = [] from rfl]

/-- Witness for C3 (amended): inserting into a fresh document (no
subfield with code "a" anywhere) creates exactly one subfield with
that code, carrying the given value. -/
theorem emplace_unique_field_code_scope_witness :
    (Marc21Metadata.emplace_unique_field "245" "1" "0" "a" "X" initMetadata)._etree.descendants.filter
      (sfCodeB "a") = [sfElem "a" "X"] :=
  (emplace_unique_field_code_scope initMetadata "245" "1" "0" "a" "X").2 rfl

/-! ### Claim C5: exactly one leader -/

/-- Node test used by `iter("leader")`: a null-namespace element named
leader. -/
def isLeaderB (e : Elem) : Bool :=
  decide (e.tag = "leader" ∧ e.ns = Option.none)

/-- All leader nodes of a tree (descendant-or-self, document order). -/
def leaderNodes (e : Elem) : List Elem :=
  (e :: e.descendants).filter isLeaderB

/-- Number of leader nodes in a document's tree. -/
def leaderCount (m : Marc21Metadata) : Nat :=
  (m._etree :: m._etree.descendants).countP isLeaderB

theorem length_filter_eq_countP {α : Type} (p : α → Bool) (l : List α) :
    (l.filter p).length = l.countP p := by
  induction l with
  | nil => rfl
  | cons a l ih =>
    rw [List.filter_cons, List.countP_cons]
    split
    · simpa using ih
    · simpa using ih

mutual

/-- Rewriting leader texts preserves the number of leader nodes, and
afterwards every leader node carries the new text. -/
theorem setLeaderText_nodes (v : String) (e : Elem) :
    ((setLeaderText v e) :: (setLeaderText v e).descendants).countP isLeaderB =
      ((e :: e.descendants)).countP isLeaderB ∧
    ∀ s ∈ (setLeaderText v e) :: (setLeaderText v e).descendants,
      isLeaderB s = true → s.text = some v := by
  cases e with
  | mk nsp tg ats tx cs =>
    rw [setLeaderText]
    obtain ⟨ihc, iht⟩ := setLeaderTextL_nodes v cs
    constructor
    · simp only [List.countP_cons, descendants_mk]
      rw [ihc]
      rfl
    · intro s hs hl
      rcases List.mem_cons.mp hs with hs1 | hs2
      · subst hs1
        have hcond : tg = "leader" ∧ nsp = Option.none := by
          simpa [isLeaderB, Elem.tag, Elem.ns] using hl
        simp [Elem.text, hcond]
      · rw [descendants_mk] at hs2
        exact iht s hs2 hl

/-- Forest version of `setLeaderText_nodes`. -/
theorem setLeaderTextL_nodes (v : String) (cs : List Elem) :
    (descendantsList (setLeaderTextL v cs)).countP isLeaderB =
      (descendantsList cs).countP isLeaderB ∧
    ∀ s ∈ descendantsList (setLeaderTextL v cs), isLeaderB s = true → s.text = some v := by
  cases cs with
  | nil => simp [setLeaderTextL, descendantsList]
  | cons c cs =>
    rw [setLeaderTextL]
    obtain ⟨ihc, iht⟩ := setLeaderText_nodes v c
    obtain ⟨ihc', iht'⟩ := setLeaderTextL_nodes v cs
    constructor
    · simp only [descendantsList, List.countP_cons, List.countP_append] at ihc ⊢
      omega
    · intro s hs hl
      simp only [descendantsList, List.mem_cons, List.mem_append] at hs
      rcases hs with hs1 | hs2 | hs3
      · exact iht s (by simp [hs1]) hl
      · exact iht s (by simp [hs2]) hl
      · exact iht' s hs3 hl

end

theorem isLeaderB_withChildren (e : Elem) (cs : List Elem) :
    isLeaderB (e.withChildren cs) = isLeaderB e := by
  cases e
  rfl

theorem isLeaderB_mk_blind (nsp : Option String) (tg : String)
    (ats : List (String × String)) (tx : Option String) (cs1 cs2 : List Elem) :
    isLeaderB (Elem.mk nsp tg ats tx cs1) = isLeaderB (Elem.mk nsp tg ats tx cs2) := rfl

theorem leaderCount_appendChild (m : Marc21Metadata) (x : Elem)
    (hx : ((x :: x.descendants)).countP isLeaderB = 0) :
    leaderCount { m with _etree := m._etree.appendChild x } = leaderCount m := by
  unfold leaderCount
  have hproj : ({ m with _etree := m._etree.appendChild x } : Marc21Metadata)._etree =
      m._etree.appendChild x := rfl
  rw [hproj, descendants_appendChild]
  simp only [Elem.appendChild, List.countP_cons, List.countP_append,
    isLeaderB_withChildren] at hx ⊢
  omega

theorem countP_isLeaderB_dfElem (t i1 i2 c v : String) :
    ((dfElem t i1 i2 c v :: (dfElem t i1 i2 c v).descendants)).countP isLeaderB = 0 := by
  simp [dfElem, sfElem, Elem.descendants, descendantsList, List.countP_cons, isLeaderB,
    Elem.tag, Elem.ns]

/-- No mutation operation of the public API changes the number of
leader nodes. -/
theorem leaderCount_applyOp (m : Marc21Metadata) (op : Op) :
    leaderCount (applyOp m op) = leaderCount m := by
  cases op with
  | field t i1 i2 c v =>
    exact leaderCount_appendChild m (dfElem t i1 i2 c v) (countP_isLeaderB_dfElem t i1 i2 c v)
  | controlfield t v =>
    refine leaderCount_appendChild m (Elem.mk Option.none "controlfield" [("tag", t)] (some v) []) ?_
    simp [Elem.descendants, descendantsList, List.countP_cons, isLeaderB, Elem.tag, Elem.ns]
  | leaderOp v =>
    unfold leaderCount
    exact (setLeaderText_nodes v m._etree).1
  | uniqueField t i1 i2 c v =>
    show leaderCount (Marc21Metadata.emplace_unique_field t i1 i2 c v m) = leaderCount m
    cases hdfs : m._etree.descendants.filter (dfMatchB t i1 i2) with
    | nil =>
      cases hie : (m._etree.descendants.filter (sfCodeB c)).isEmpty with
      | true =>
        have hres : Marc21Metadata.emplace_unique_field t i1 i2 c v m =
            { m with _etree := m._etree.appendChild (dfElem t i1 i2 c v) } := by
          unfold Marc21Metadata.emplace_unique_field
          simp [hdfs, hie]
        rw [hres]
        exact leaderCount_appendChild m _ (countP_isLeaderB_dfElem t i1 i2 c v)
      | false =>
        have hres : Marc21Metadata.emplace_unique_field t i1 i2 c v m = m := by
          unfold Marc21Metadata.emplace_unique_field
          simp [hdfs, hie]
        rw [hres]
    | cons a l =>
      cases hie : (m._etree.descendants.filter (sfCodeB c)).isEmpty with
      | false =>
        have hres : Marc21Metadata.emplace_unique_field t i1 i2 c v m = m := by
          unfold Marc21Metadata.emplace_unique_field
          simp [hdfs, hie]
        rw [hres]
      | true =>
        cases hrem : removeFirstL (dfMatchB t i1 i2) m._etree.children with
        | none =>
          have hres : Marc21Metadata.emplace_unique_field t i1 i2 c v m = m := by
            unfold Marc21Metadata.emplace_unique_field
            simp [hdfs, hie, hrem]
          rw [hres]
        | some pr =>
          obtain ⟨cs', d⟩ := pr
          have hres : Marc21Metadata.emplace_unique_field t i1 i2 c v m =
              { m with _etree := m._etree.withChildren (cs' ++ [d.appendChild (sfElem c v)]) } := by
            unfold Marc21Metadata.emplace_unique_field
            simp [hdfs, hie, hrem]
          rw [hres]
          obtain ⟨hpd, hcount⟩ := removeFirstL_countP (dfMatchB t i1 i2) isLeaderB
            (isLeaderB_mk_blind) m._etree.children cs' d hrem
          have hdesc : m._etree.descendants = descendantsList m._etree.children := by
            cases m._etree
            simp [Elem.descendants, Elem.children]
          unfold leaderCount
          have hproj : ({ m with _etree :=
              m._etree.withChildren (cs' ++ [d.appendChild (sfElem c v)]) } :
              Marc21Metadata)._etree =
              m._etree.withChildren (cs' ++ [d.appendChild (sfElem c v)]) := rfl
          rw [hproj, descendants_withChildren, descendantsList_append]
          have hd' : descendantsList [d.appendChild (sfElem c v)] =
              (d.appendChild (sfElem c v)) :: ((d.appendChild (sfElem c v)).descendants) := by
            simp [descendantsList]
          rw [hd', descendants_appendChild]
          have hsfd : (sfElem c v).descendants = [] := rfl
          have hz : (if isLeaderB (sfElem c v) = true then (1 : Nat) else 0) = 0 := rfl
          rw [hsfd, hdesc]
          simp only [Elem.appendChild, isLeaderB_withChildren, List.countP_cons,
            List.countP_append, List.countP_nil, hz] at hcount ⊢
          omega

theorem leaderCount_build (ops : List Op) : leaderCount (build ops) = 1 := by
  have haux : ∀ (l : List Op) (m : Marc21Metadata),
      leaderCount (l.foldl applyOp m) = leaderCount m := by
    intro l
    induction l with
    | nil => intro m; rfl
    | cons op l ih =>
      intro m
      rw [List.foldl_cons, ih, leaderCount_applyOp]
  rw [build, haux]
  rfl

/-- C5: on any document built through the public API, `set_leader(v)`
leaves exactly one leader node in the tree — whose text is `v` — and
no mutation operation of the API ever adds or removes a leader node. -/
theorem emplace_leader_unique_leader (ops : List Op) (v : String) :
    (leaderNodes (Marc21Metadata.emplace_leader v (build ops))._etree).map Elem.text = [some v] ∧
    ∀ op : Op, leaderCount (applyOp (build ops) op) = leaderCount (build ops) := by
  constructor
  · have htree : (Marc21Metadata.emplace_leader v (build ops))._etree =
        setLeaderText v (build ops)._etree := rfl
    rw [htree]
    obtain ⟨hcnt, htxt⟩ := setLeaderText_nodes v (build ops)._etree
    have hone : ((build ops)._etree :: (build ops)._etree.descendants).countP isLeaderB = 1 :=
      leaderCount_build ops
    have hlen : (leaderNodes (setLeaderText v (build ops)._etree)).length = 1 := by
      rw [leaderNodes, length_filter_eq_countP, hcnt, hone]
    obtain ⟨s, hs⟩ := List.length_eq_one.mp hlen
    have hsmem : s ∈ leaderNodes (setLeaderText v (build ops)._etree) := by
      rw [hs]
      exact List.mem_cons_self _ _
    obtain ⟨hsmem', hsl⟩ := List.mem_filter.mp hsmem
    rw [hs, List.map_cons, List.map_nil, htxt s hsmem' hsl]
  · intro op
    exact leaderCount_applyOp (build ops) op

/-! ### Claim C10: emplace_unique_field moves the matched datafield -/

/-- Flatness of API-built documents: every grandchild of the root is a
childless subfield (so nothing below the root's own children can match
a datafield query). -/
def flatDoc (m : Marc21Metadata) : Prop :=
  ∀ c ∈ m._etree.children, ∀ g ∈ c.children, g.tag = "subfield" ∧ g.children = []

theorem dfMatchB_of_tag_ne (t i1 i2 : String) (e : Elem) (h : e.tag ≠ "datafield") :
    dfMatchB t i1 i2 e = false := by
  unfold dfMatchB
  rw [decide_eq_false]
  exact fun hh => h hh.2.1

theorem dfMatchB_withChildren (t i1 i2 : String) (e : Elem) (cs : List Elem) :
    dfMatchB t i1 i2 (e.withChildren cs) = dfMatchB t i1 i2 e := by
  cases e
  rfl

theorem setLeaderTextL_eq_map (v : String) :
    ∀ cs : List Elem, setLeaderTextL v cs = cs.map (setLeaderText v)
  | [] => rfl
  | c :: cs => by rw [setLeaderTextL, List.map_cons, setLeaderTextL_eq_map v cs]

theorem setLeaderText_tag (v : String) (e : Elem) : (setLeaderText v e).tag = e.tag := by
  cases e
  rw [setLeaderText]
  rfl

theorem setLeaderText_children (v : String) (e : Elem) :
    (setLeaderText v e).children = setLeaderTextL v e.children := by
  cases e
  rw [setLeaderText]
  rfl

/-- A forest of childless non-matching nodes yields no removal. -/
theorem removeFirstL_flat_none (p : Elem → Bool) :
    ∀ gs : List Elem, (∀ g ∈ gs, p g = false ∧ g.children = []) →
      removeFirstL p gs = Option.none
  | [] => by
    intro _
    simp [removeFirstL]
  | Elem.mk nsp tg ats tx gcs :: gs => by
    intro h
    obtain ⟨hp, hc⟩ := h (Elem.mk nsp tg ats tx gcs) (List.mem_cons_self _ _)
    rw [removeFirstL, if_neg (by simp [hp])]
    have hgcs : gcs = [] := hc
    subst hgcs
    have h0 : removeFirstL p ([] : List Elem) = Option.none := by simp [removeFirstL]
    rw [h0, removeFirstL_flat_none p gs (fun g hg => h g (List.mem_cons_of_mem _ hg))]

/-- On a flat forest the pre-order removal is a top-level scan: either
nothing matches, or the forest splits around the first matching
element, which is removed in place. -/
theorem removeFirstL_flat (p : Elem → Bool) :
    ∀ cs : List Elem, (∀ c ∈ cs, ∀ g ∈ c.children, p g = false ∧ g.children = []) →
      (removeFirstL p cs = Option.none ∧ ∀ c ∈ cs, p c = false) ∨
      ∃ l1 d l2, cs = l1 ++ d :: l2 ∧ (∀ x ∈ l1, p x = false) ∧ p d = true ∧
        removeFirstL p cs = some (l1 ++ l2, d)
  | [] => by
    intro _
    exact Or.inl ⟨by simp [removeFirstL], by simp⟩
  | Elem.mk nsp tg ats tx gs :: cs => by
    intro h
    by_cases hp : p (Elem.mk nsp tg ats tx gs) = true
    · refine Or.inr ⟨[], Elem.mk nsp tg ats tx gs, cs, by simp, by simp, hp, ?_⟩
      rw [removeFirstL, if_pos hp]
      rfl
    · have hinner : removeFirstL p gs = Option.none := by
        refine removeFirstL_flat_none p gs (fun g hg => ?_)
        exact h (Elem.mk nsp tg ats tx gs) (List.mem_cons_self _ _) g hg
      have htail := removeFirstL_flat p cs (fun c hc => h c (List.mem_cons_of_mem _ hc))
      rcases htail with ⟨hnone, hall⟩ | ⟨l1, d, l2, hsplit, hl1, hpd, hrem⟩
      · refine Or.inl ⟨?_, ?_⟩
        · rw [removeFirstL, if_neg hp, hinner, hnone]
        · intro c hc
          rcases List.mem_cons.mp hc with hc1 | hc2
          · subst hc1
            simpa using hp
          · exact hall c hc2
      · refine Or.inr ⟨Elem.mk nsp tg ats tx gs :: l1, d, l2, by rw [hsplit]; rfl, ?_, hpd, ?_⟩
        · intro x hx
          rcases List.mem_cons.mp hx with hx1 | hx2
          · subst hx1
            simpa using hp
          · exact hl1 x hx2
        · rw [removeFirstL, if_neg hp, hinner, hrem]
          rfl

/-- Under a flat forest a children-less-below predicate filters the
full descendant list exactly as it filters the top level. -/
theorem filter_descendants_flat_aux (p : Elem → Bool) :
    ∀ gs : List Elem, (∀ g ∈ gs, p g = false ∧ g.children = []) →
      (descendantsList gs).filter p = []
  | [] => by intro _; rfl
  | g :: gs => by
    intro h
    obtain ⟨hp, hc⟩ := h g (List.mem_cons_self _ _)
    rw [descendantsList, List.filter_cons, if_neg (by simp [hp]), List.filter_append]
    have hdg : g.descendants = [] := by
      cases g with
      | mk nsp tg ats tx gcs =>
        have : gcs = [] := hc
        subst this
        rfl
    rw [hdg, filter_descendants_flat_aux p gs (fun x hx => h x (List.mem_cons_of_mem _ hx))]
    rfl

theorem filter_descendantsList_flat (p : Elem → Bool) :
    ∀ cs : List Elem, (∀ c ∈ cs, ∀ g ∈ c.children, p g = false ∧ g.children = []) →
      (descendantsList cs).filter p = cs.filter p
  | [] => by intro _; rfl
  | c :: cs => by
    intro h
    rw [descendantsList, List.filter_cons, List.filter_cons, List.filter_append]
    have hdc : (c.descendants).filter p = [] := by
      cases c with
      | mk nsp tg ats tx gcs =>
        rw [descendants_mk]
        exact filter_descendants_flat_aux p gcs
          (fun g hg => h (Elem.mk nsp tg ats tx gcs) (List.mem_cons_self _ _) g hg)
    rw [hdc, filter_descendantsList_flat p cs (fun x hx => h x (List.mem_cons_of_mem _ hx))]
    split
    · rfl
    · rfl

/-- Every document built through the public API is flat. -/
theorem flatDoc_build (ops : List Op) : flatDoc (build ops) := by
  have hstep : ∀ (m : Marc21Metadata) (op : Op), flatDoc m → flatDoc (applyOp m op) := by
    intro m op hm
    cases op with
    | field t i1 i2 c v =>
      show flatDoc (Marc21Metadata.emplace_field t i1 i2 c v m)
      intro c' hc' g hg
      have hch : (Marc21Metadata.emplace_field t i1 i2 c v m)._etree.children =
          m._etree.children ++ [dfElem t i1 i2 c v] := by
        rw [show (Marc21Metadata.emplace_field t i1 i2 c v m)._etree =
          m._etree.appendChild (dfElem t i1 i2 c v) from rfl, children_appendChild]
      rw [hch] at hc'
      rcases List.mem_append.mp hc' with hmem | hmem
      · exact hm c' hmem g hg
      · have hc'' : c' = dfElem t i1 i2 c v := by simpa using hmem
        subst hc''
        have hsg : g = sfElem c v := by simpa [dfElem, Elem.children] using hg
        subst hsg
        exact ⟨rfl, rfl⟩
    | controlfield t v =>
      show flatDoc (Marc21Metadata.emplace_controlfield t v m)
      intro c' hc' g hg
      have hch : (Marc21Metadata.emplace_controlfield t v m)._etree.children =
          m._etree.children ++ [Elem.mk Option.none "controlfield" [("tag", t)] (some v) []] := by
        rw [show (Marc21Metadata.emplace_controlfield t v m)._etree =
          m._etree.appendChild (Elem.mk Option.none "controlfield" [("tag", t)] (some v) [])
          from rfl, children_appendChild]
      rw [hch] at hc'
      rcases List.mem_append.mp hc' with hmem | hmem
      · exact hm c' hmem g hg
      · have hc'' : c' = Elem.mk Option.none "controlfield" [("tag", t)] (some v) [] := by
          simpa using hmem
        subst hc''
        simp [Elem.children] at hg
    | leaderOp v =>
      show flatDoc (Marc21Metadata.emplace_leader v m)
      intro c' hc' g hg
      have hch : (Marc21Metadata.emplace_leader v m)._etree.children =
          (m._etree.children).map (setLeaderText v) := by
        rw [show (Marc21Metadata.emplace_leader v m)._etree = setLeaderText v m._etree from rfl,
          setLeaderText_children, setLeaderTextL_eq_map]
      rw [hch] at hc'
      obtain ⟨c0, hc0, hc0e⟩ := List.mem_map.mp hc'
      subst hc0e
      rw [setLeaderText_children, setLeaderTextL_eq_map] at hg
      obtain ⟨g0, hg0, hg0e⟩ := List.mem_map.mp hg
      subst hg0e
      obtain ⟨hg0t, hg0c⟩ := hm c0 hc0 g0 hg0
      refine ⟨by rw [setLeaderText_tag, hg0t], ?_⟩
      rw [setLeaderText_children, hg0c]
      rfl
    | uniqueField t i1 i2 c v =>
      cases hdfs : m._etree.descendants.filter (dfMatchB t i1 i2) with
      | nil =>
        cases hie : (m._etree.descendants.filter (sfCodeB c)).isEmpty with
        | true =>
          have hres : Marc21Metadata.emplace_unique_field t i1 i2 c v m =
              { m with _etree := m._etree.appendChild (dfElem t i1 i2 c v) } := by
            unfold Marc21Metadata.emplace_unique_field
            simp [hdfs, hie]
          show flatDoc (Marc21Metadata.emplace_unique_field t i1 i2 c v m)
          rw [hres]
          intro c' hc' g hg
          have hch : (m._etree.appendChild (dfElem t i1 i2 c v)).children =
              m._etree.children ++ [dfElem t i1 i2 c v] := by
            cases m._etree
            rfl
          rw [show ({ m with _etree := m._etree.appendChild (dfElem t i1 i2 c v) } :
            Marc21Metadata)._etree = m._etree.appendChild (dfElem t i1 i2 c v) from rfl, hch] at hc'
          rcases List.mem_append.mp hc' with hmem | hmem
          · exact hm c' hmem g hg
          · have hc'' : c' = dfElem t i1 i2 c v := by simpa using hmem
            subst hc''
            have hsg : g = sfElem c v := by simpa [dfElem, Elem.children] using hg
            subst hsg
            exact ⟨rfl, rfl⟩
        | false =>
          have hres : Marc21Metadata.emplace_unique_field t i1 i2 c v m = m := by
            unfold Marc21Metadata.emplace_unique_field
            simp [hdfs, hie]
          show flatDoc (Marc21Metadata.emplace_unique_field t i1 i2 c v m)
          rw [hres]
          exact hm
      | cons a l =>
        cases hie : (m._etree.descendants.filter (sfCodeB c)).isEmpty with
        | false =>
          have hres : Marc21Metadata.emplace_unique_field t i1 i2 c v m = m := by
            unfold Marc21Metadata.emplace_unique_field
            simp [hdfs, hie]
          show flatDoc (Marc21Metadata.emplace_unique_field t i1 i2 c v m)
          rw [hres]
          exact hm
        | true =>
          cases hrem : removeFirstL (dfMatchB t i1 i2) m._etree.children with
          | none =>
            have hres : Marc21Metadata.emplace_unique_field t i1 i2 c v m = m := by
              unfold Marc21Metadata.emplace_unique_field
              simp [hdfs, hie, hrem]
            show flatDoc (Marc21Metadata.emplace_unique_field t i1 i2 c v m)
            rw [hres]
            exact hm
          | some pr =>
            obtain ⟨cs', d⟩ := pr
            have hres : Marc21Metadata.emplace_unique_field t i1 i2 c v m =
                { m with _etree := m._etree.withChildren (cs' ++ [d.appendChild (sfElem c v)]) } := by
              unfold Marc21Metadata.emplace_unique_field
              simp [hdfs, hie, hrem]
            show flatDoc (Marc21Metadata.emplace_unique_field t i1 i2 c v m)
            rw [hres]
            -- on a flat document the removal is a top-level split
            rcases removeFirstL_flat (dfMatchB t i1 i2) m._etree.children
              (fun c0 hc0 g hg => ⟨dfMatchB_of_tag_ne t i1 i2 g
                (by rw [(hm c0 hc0 g hg).1]; decide),
                (hm c0 hc0 g hg).2⟩) with hflat | hflat
            · rw [hflat.1] at hrem
              cases hrem
            · obtain ⟨l1, d0, l2, hsplit, hl1, hpd, hrem'⟩ := hflat
              rw [hrem'] at hrem
              simp only [Option.some.injEq, Prod.mk.injEq] at hrem
              obtain ⟨hcs', hd0⟩ := hrem
              subst hcs'
              subst hd0
              intro c' hc' g hg
              rw [show ({ m with _etree :=
                  m._etree.withChildren (l1 ++ l2 ++ [d0.appendChild (sfElem c v)]) } :
                  Marc21Metadata)._etree =
                  m._etree.withChildren (l1 ++ l2 ++ [d0.appendChild (sfElem c v)]) from rfl] at hc'
              rw [show (m._etree.withChildren (l1 ++ l2 ++ [d0.appendChild (sfElem c v)])).children =
                  l1 ++ l2 ++ [d0.appendChild (sfElem c v)] from by cases m._etree; rfl] at hc'
              have hmemsplit : ∀ x, x ∈ l1 ++ d0 :: l2 → x ∈ m._etree.children := by
                intro x hx
                rw [hsplit]
                exact hx
              rcases List.mem_append.mp hc' with hmem | hmem
              · rcases List.mem_append.mp hmem with hmem1 | hmem2
                · exact hm c' (hmemsplit c' (List.mem_append.mpr (Or.inl hmem1))) g hg
                · exact hm c' (hmemsplit c'
                    (List.mem_append.mpr (Or.inr (List.mem_cons_of_mem _ hmem2)))) g hg
              · have hc'' : c' = d0.appendChild (sfElem c v) := by simpa using hmem
                subst hc''
                rw [show (d0.appendChild (sfElem c v)).children = d0.children ++ [sfElem c v]
                  from by cases d0; rfl] at hg
                rcases List.mem_append.mp hg with hgm | hgm
                · exact hm d0 (hmemsplit d0 (List.mem_append.mpr (Or.inr
                    (List.mem_cons_self _ _)))) g hgm
                · have hgs : g = sfElem c v := by simpa using hgm
                  subst hgs
                  exact ⟨rfl, rfl⟩
  have haux : ∀ (l : List Op) (m : Marc21Metadata), flatDoc m → flatDoc (l.foldl applyOp m) := by
    intro l
    induction l with
    | nil => intro m hm; exact hm
    | cons op l ih =>
      intro m hm
      rw [List.foldl_cons]
      exact ih _ (hstep m op hm)
  refine haux ops initMetadata ?_
  intro c hc g hg
  have hc' : c = Elem.mk Option.none "leader" [] (some "00000nam a2200000zca4500") [] := by
    simpa [initMetadata, Elem.children] using hc
  subst hc'
  simp [Elem.children] at hg

/-- Decomposition of forest membership: a node of the descendant list
is a root of the forest or a descendant of one. -/
theorem mem_descendantsList :
    ∀ (cs : List Elem) (e : Elem), e ∈ descendantsList cs →
      ∃ c ∈ cs, e = c ∨ e ∈ c.descendants
  | [] => by
    intro e he
    rw [descendantsList] at he
    cases he
  | c :: cs => by
    intro e he
    rw [descendantsList] at he
    rcases List.mem_cons.mp he with he1 | he2
    · exact ⟨c, List.mem_cons_self _ _, Or.inl he1⟩
    · rcases List.mem_append.mp he2 with he3 | he4
      · exact ⟨c, List.mem_cons_self _ _, Or.inr he3⟩
      · obtain ⟨c', hc', hor⟩ := mem_descendantsList cs e he4
        exact ⟨c', List.mem_cons_of_mem _ hc', hor⟩

/-- Converse of `removeFirstL_none`: when no node of the forest
satisfies the predicate, the removal finds nothing. -/
theorem removeFirstL_eq_none (p : Elem → Bool) :
    ∀ cs : List Elem, (∀ e ∈ descendantsList cs, p e = false) →
      removeFirstL p cs = Option.none
  | [] => by
    intro _
    simp [removeFirstL]
  | Elem.mk nsp tg ats tx gs :: cs => by
    intro h
    have hmemself : Elem.mk nsp tg ats tx gs ∈
        descendantsList (Elem.mk nsp tg ats tx gs :: cs) := by
      rw [descendantsList]
      exact List.mem_cons_self _ _
    have hp : p (Elem.mk nsp tg ats tx gs) = false := h _ hmemself
    rw [removeFirstL, if_neg (by simp [hp])]
    have hgs : removeFirstL p gs = Option.none := by
      refine removeFirstL_eq_none p gs (fun e he => h e ?_)
      rw [descendantsList]
      exact List.mem_cons_of_mem _ (List.mem_append.mpr (Or.inl (by
        rw [descendants_mk]
        exact he)))
    have hcs : removeFirstL p cs = Option.none := by
      refine removeFirstL_eq_none p cs (fun e he => h e ?_)
      rw [descendantsList]
      exact List.mem_cons_of_mem _ (List.mem_append.mpr (Or.inr he))
    rw [hgs, hcs]

/-- When no node strictly below the forest's roots satisfies the
predicate, the pre-order removal is a top-level scan: either nothing
matches, or the forest splits around the first matching root, which is
removed in place.  This is the general form of `removeFirstL_flat`:
it applies to any document — built, loaded or parsed — whose matching
datafields all sit at the top level, as the MARC21 document model
prescribes. -/
theorem removeFirstL_topLevel (p : Elem → Bool) :
    ∀ cs : List Elem, (∀ c ∈ cs, ∀ g ∈ c.descendants, p g = false) →
      (removeFirstL p cs = Option.none ∧ ∀ c ∈ cs, p c = false) ∨
      ∃ l1 d l2, cs = l1 ++ d :: l2 ∧ (∀ x ∈ l1, p x = false) ∧ p d = true ∧
        removeFirstL p cs = some (l1 ++ l2, d)
  | [] => by
    intro _
    exact Or.inl ⟨by simp [removeFirstL], by simp⟩
  | Elem.mk nsp tg ats tx gs :: cs => by
    intro h
    by_cases hp : p (Elem.mk nsp tg ats tx gs) = true
    · refine Or.inr ⟨[], Elem.mk nsp tg ats tx gs, cs, by simp, by simp, hp, ?_⟩
      rw [removeFirstL, if_pos hp]
      rfl
    · have hinner : removeFirstL p gs = Option.none := by
        refine removeFirstL_eq_none p gs (fun g hg => ?_)
        refine h (Elem.mk nsp tg ats tx gs) (List.mem_cons_self _ _) g ?_
        rw [descendants_mk]
        exact hg
      have htail := removeFirstL_topLevel p cs (fun c hc => h c (List.mem_cons_of_mem _ hc))
      rcases htail with ⟨hnone, hall⟩ | ⟨l1, d, l2, hsplit, hl1, hpd, hrem⟩
      · refine Or.inl ⟨?_, ?_⟩
        · rw [removeFirstL, if_neg hp, hinner, hnone]
        · intro c hc
          rcases List.mem_cons.mp hc with hc1 | hc2
          · subst hc1
            simpa using hp
          · exact hall c hc2
      · refine Or.inr ⟨Elem.mk nsp tg ats tx gs :: l1, d, l2, by rw [hsplit]; rfl, ?_, hpd, ?_⟩
        · intro x hx
          rcases List.mem_cons.mp hx with hx1 | hx2
          · subst hx1
            simpa using hp
          · exact hl1 x hx2
        · rw [removeFirstL, if_neg hp, hinner, hrem]
          rfl

/-- The shape of the mutation performed by `add_unique_field` when a
datafield already matches and no subfield with the code exists: the
root's children split around the first matching datafield, which is
re-appended at the LAST position with the new subfield appended to its
children; every other child keeps its position and content, and the
number of matching datafields is unchanged (no duplicate is created). -/
def uniqueMoveSpec (m : Marc21Metadata) (t i1 i2 c v : String) : Prop :=
  ∃ l1 d l2, m._etree.children = l1 ++ d :: l2 ∧
    (∀ x ∈ l1, dfMatchB t i1 i2 x = false) ∧ dfMatchB t i1 i2 d = true ∧
    (Marc21Metadata.emplace_unique_field t i1 i2 c v m)._etree =
      m._etree.withChildren ((l1 ++ l2) ++ [d.appendChild (sfElem c v)]) ∧
    ((Marc21Metadata.emplace_unique_field t i1 i2 c v m)._etree.children.filter
      (dfMatchB t i1 i2)).length = (m._etree.children.filter (dfMatchB t i1 i2)).length

/-- C10: on ANY document — constructed through the API, loaded, or
parsed — in which a datafield matching tag+ind1+ind2 exists, no
subfield carries the given code, and no matching datafield sits below
the root's own children (the shape the MARC21 document model
prescribes: datafields are children of the record root),
`add_unique_field` appends the new subfield to the first matching
datafield and moves that node to the last position among the root's
children, leaving all other children untouched and creating no
duplicate datafield. -/
theorem emplace_unique_field_moves_datafield (m : Marc21Metadata) (t i1 i2 c v : String)
    (hnested : ∀ c0 ∈ m._etree.children, ∀ g ∈ c0.descendants, dfMatchB t i1 i2 g = false)
    (hd : m._etree.descendants.filter (dfMatchB t i1 i2) ≠ [])
    (hs : m._etree.descendants.filter (sfCodeB c) = []) :
    uniqueMoveSpec m t i1 i2 c v := by
  have hdesc : m._etree.descendants = descendantsList m._etree.children := by
    cases m._etree
    simp [Elem.descendants, Elem.children]
  rcases removeFirstL_topLevel (dfMatchB t i1 i2) m._etree.children hnested with
    hflat | hflat
  · exfalso
    apply hd
    rw [hdesc]
    refine List.filter_eq_nil_iff.mpr (fun e he => ?_)
    obtain ⟨c0, hc0, hor⟩ := mem_descendantsList m._etree.children e he
    rcases hor with he1 | he2
    · subst he1
      simp [hflat.2 e hc0]
    · simp [hnested c0 hc0 e he2]
  · obtain ⟨l1, d, l2, hsplit, hl1, hpd, hrem⟩ := hflat
    have hie : (m._etree.descendants.filter (sfCodeB c)).isEmpty = true := by
      rw [hs]
      rfl
    cases hdfs : m._etree.descendants.filter (dfMatchB t i1 i2) with
    | nil => exact absurd hdfs hd
    | cons a l =>
      have hres : (Marc21Metadata.emplace_unique_field t i1 i2 c v m)._etree =
          m._etree.withChildren ((l1 ++ l2) ++ [d.appendChild (sfElem c v)]) := by
        unfold Marc21Metadata.emplace_unique_field
        simp [hdfs, hie, hrem]
      refine ⟨l1, d, l2, hsplit, hl1, hpd, hres, ?_⟩
      rw [hres, children_withChildren, hsplit]
      simp only [List.filter_append, List.filter_cons, Elem.appendChild,
        dfMatchB_withChildren, hpd, List.length_append]
      have hfl1 : l1.filter (dfMatchB t i1 i2) = [] :=
        List.filter_eq_nil_iff.mpr (fun x hx => by simp [hl1 x hx])
      rw [hfl1]
      simp

/-- A document NOT produced by the mutation API: it models a parsed
MARC record (2 subfields with the repeated code "a" inside one
datafield, plus a controlfield) installed wholesale as the backing
tree, as `load` / the xml setter do. -/
def m10ex : Marc21Metadata :=
  { _xml := "",
    _json := PyVal.dict [],
    _etree := Elem.mk Option.none "record" [("xmlns", "http://www.loc.gov/MARC21/slim")]
      Option.none
      [Elem.mk Option.none "leader" [] (some "00000nam a2200000zca4500") [],
       Elem.mk Option.none "datafield" [("tag", "245"), ("ind1", "1"), ("ind2", "0")]
         Option.none
         [Elem.mk Option.none "subfield" [("code", "a")] (some "X") [],
          Elem.mk Option.none "subfield" [("code", "a")] (some "Y") []],
       Elem.mk Option.none "controlfield" [("tag", "001")] (some "990") []] }

/-- Witness for C10 at a loaded (non-API-built) document with a
repeated subfield code, inserting under a fresh code. -/
theorem emplace_unique_field_moves_datafield_witness :
    uniqueMoveSpec m10ex "245" "1" "0" "b" "Z" :=
  emplace_unique_field_moves_datafield m10ex "245" "1" "0" "b" "Z"
    (by decide) (List.cons_ne_nil _ _) rfl

/-! ### Claim C6: unconditional accumulation of data fields -/

/-- Arguments of one `add_field` call. -/
structure FieldArgs : Type where
  t : String
  i1 : String
  i2 : String
  c : String
  v : String

def dfElemOf (a : FieldArgs) : Elem := dfElem a.t a.i1 a.i2 a.c a.v

def fieldPyOf (a : FieldArgs) : PyVal := fieldPy a.i1 a.i2 a.c a.v

/-- A document built by a sequence of `add_field` calls on a fresh
metadata object. -/
def buildF (args : List FieldArgs) : Marc21Metadata :=
  build (args.map (fun a => Op.field a.t a.i1 a.i2 a.c a.v))

/-- One step of the grouping the visitor performs per datafield:
append the entry to the tag's list, creating it on first use (the
fall-through arm is unreachable while all values are lists). -/
def groupStep (fl : List (Option String × PyVal)) (a : FieldArgs) :
    List (Option String × PyVal) :=
  match dictGet fl (some a.t) with
  | some (PyVal.list items) => dictSet fl (some a.t) (PyVal.list (items ++ [fieldPyOf a]))
  | _ => dictSet fl (some a.t) (PyVal.list [fieldPyOf a])

def groupF (fl : List (Option String × PyVal)) (args : List FieldArgs) :
    List (Option String × PyVal) :=
  args.foldl groupStep fl

/-- Every value of the fields dict is a list. -/
def AllLists (fl : List (Option String × PyVal)) : Prop :=
  ∀ k vv, (k, vv) ∈ fl → ∃ items, vv = PyVal.list items

theorem AllLists_groupStep (fl : List (Option String × PyVal)) (a : FieldArgs)
    (h : AllLists fl) : AllLists (groupStep fl a) := by
  intro k vv hmem
  unfold groupStep at hmem
  cases hget : dictGet fl (some a.t) with
  | none =>
    rw [hget] at hmem
    rcases mem_dictSet _ _ _ _ _ hmem with ⟨_, hv⟩ | hmem'
    · exact ⟨_, hv⟩
    · exact h k vv hmem'
  | some vv0 =>
    obtain ⟨items0, hitems0⟩ := h (some a.t) vv0 (dictGet_mem _ _ _ hget)
    subst hitems0
    rw [hget] at hmem
    rcases mem_dictSet _ _ _ _ _ hmem with ⟨_, hv⟩ | hmem'
    · exact ⟨_, hv⟩
    · exact h k vv hmem'

theorem buildF_children (args : List FieldArgs) :
    (buildF args)._etree.children =
      Elem.mk Option.none "leader" [] (some "00000nam a2200000zca4500") [] ::
        args.map dfElemOf := by
  have haux : ∀ (l : List FieldArgs) (m : Marc21Metadata),
      ((l.map (fun a => Op.field a.t a.i1 a.i2 a.c a.v)).foldl applyOp m)._etree.children =
        m._etree.children ++ l.map dfElemOf := by
    intro l
    induction l with
    | nil => intro m; simp
    | cons a l ih =>
      intro m
      rw [List.map_cons, List.foldl_cons, ih]
      have hstep : (applyOp m (Op.field a.t a.i1 a.i2 a.c a.v))._etree.children =
          m._etree.children ++ [dfElemOf a] := by
        rw [show (applyOp m (Op.field a.t a.i1 a.i2 a.c a.v))._etree =
          m._etree.appendChild (dfElemOf a) from rfl, children_appendChild]
      rw [hstep, List.map_cons]
      simp
  rw [buildF, build, haux]
  rfl

theorem visitL_dfElems (args : List FieldArgs) :
    ∀ (ldr : PyVal) (fl : List (Option String × PyVal))
      (sf : Option (List (Option String × PyVal))), AllLists fl →
      ∃ sf', visitL (stOf ldr fl sf) (args.map dfElemOf) =
        Except.ok (stOf ldr (groupF fl args) sf') := by
  induction args with
  | nil =>
    intro ldr fl sf _
    exact ⟨sf, rfl⟩
  | cons a args ih =>
    intro ldr fl sf hfl
    have hpr : process (stOf ldr fl sf) (dfElemOf a) =
        appendField (some a.t) (fieldPyOf a)
          (stOf ldr fl (some [(some a.c, PyVal.list [PyVal.str a.v])])) := by
      rw [dfElemOf, process_dfElem]
      rfl
    have hfl' : AllLists (groupStep fl a) := AllLists_groupStep fl a hfl
    cases hget : dictGet fl (some a.t) with
    | none =>
      have hap := appendField_stOf_none ldr fl (some a.t) (fieldPyOf a)
        (some [(some a.c, PyVal.list [PyVal.str a.v])]) hget
      have hgs : groupStep fl a = dictSet fl (some a.t) (PyVal.list [fieldPyOf a]) := by
        unfold groupStep
        rw [hget]
      obtain ⟨sf', hsf'⟩ := ih ldr (groupStep fl a)
        (some [(some a.c, PyVal.list [PyVal.str a.v])]) hfl'
      refine ⟨sf', ?_⟩
      have hfold : groupF fl (a :: args) = groupF (groupStep fl a) args := by
        rw [groupF, groupF, List.foldl_cons]
      rw [List.map_cons, visitL, hpr, hap, ← hgs, hfold]
      exact hsf'
    | some vv0 =>
      obtain ⟨items0, hitems0⟩ := hfl (some a.t) vv0 (dictGet_mem _ _ _ hget)
      subst hitems0
      have hap := appendField_stOf_list ldr fl (some a.t) (fieldPyOf a) items0
        (some [(some a.c, PyVal.list [PyVal.str a.v])]) hget
      have hgs : groupStep fl a = dictSet fl (some a.t) (PyVal.list (items0 ++ [fieldPyOf a])) := by
        unfold groupStep
        rw [hget]
      obtain ⟨sf', hsf'⟩ := ih ldr (groupStep fl a)
        (some [(some a.c, PyVal.list [PyVal.str a.v])]) hfl'
      refine ⟨sf', ?_⟩
      have hfold : groupF fl (a :: args) = groupF (groupStep fl a) args := by
        rw [groupF, groupF, List.foldl_cons]
      rw [List.map_cons, visitL, hpr, hap, ← hgs, hfold]
      exact hsf'

theorem dictGet_groupF (tq : String) (args : List FieldArgs) :
    ∀ fl : List (Option String × PyVal), AllLists fl →
      (dictGet fl (some tq) = Option.none →
        dictGet (groupF fl args) (some tq) =
          (if (args.filter (fun a => a.t == tq)).isEmpty then Option.none
           else some (PyVal.list ((args.filter (fun a => a.t == tq)).map fieldPyOf)))) ∧
      (∀ items, dictGet fl (some tq) = some (PyVal.list items) →
        dictGet (groupF fl args) (some tq) =
          some (PyVal.list (items ++ (args.filter (fun a => a.t == tq)).map fieldPyOf))) := by
  induction args with
  | nil =>
    intro fl _
    constructor
    · intro hn
      simpa [groupF] using hn
    · intro items hi
      simpa [groupF] using hi
  | cons a args ih =>
    intro fl hfl
    have hfl' : AllLists (groupStep fl a) := AllLists_groupStep fl a hfl
    have hfold : groupF fl (a :: args) = groupF (groupStep fl a) args := by
      rw [groupF, List.foldl_cons]
      rfl
    by_cases hat : a.t = tq
    · subst hat
      constructor
      · intro hn
        have hgs : groupStep fl a = dictSet fl (some a.t) (PyVal.list [fieldPyOf a]) := by
          unfold groupStep
          rw [hn]
        have hget' : dictGet (groupStep fl a) (some a.t) = some (PyVal.list [fieldPyOf a]) := by
          rw [hgs]
          exact dictGet_dictSet_self _ _ _
        have := (ih (groupStep fl a) hfl').2 [fieldPyOf a] hget'
        rw [hfold, this, List.filter_cons]
        simp
      · intro items hi
        have hgs : groupStep fl a = dictSet fl (some a.t) (PyVal.list (items ++ [fieldPyOf a])) := by
          unfold groupStep
          rw [hi]
        have hget' : dictGet (groupStep fl a) (some a.t) =
            some (PyVal.list (items ++ [fieldPyOf a])) := by
          rw [hgs]
          exact dictGet_dictSet_self _ _ _
        have := (ih (groupStep fl a) hfl').2 (items ++ [fieldPyOf a]) hget'
        rw [hfold, this, List.filter_cons]
        simp
    · have hne : (some tq : Option String) ≠ some a.t := by
        intro hh
        exact hat (Option.some.injEq _ _ ▸ hh).symm
      have hkeep : dictGet (groupStep fl a) (some tq) = dictGet fl (some tq) := by
        unfold groupStep
        cases hget : dictGet fl (some a.t) with
        | none => exact dictGet_dictSet_ne _ _ _ _ hne
        | some vv0 =>
          obtain ⟨items0, hitems0⟩ := hfl (some a.t) vv0 (dictGet_mem _ _ _ hget)
          subst hitems0
          exact dictGet_dictSet_ne _ _ _ _ hne
      have hfilter : (a :: args).filter (fun a => a.t == tq) =
          args.filter (fun a => a.t == tq) := by
        rw [List.filter_cons, if_neg (by simp [hat])]
      constructor
      · intro hn
        have := (ih (groupStep fl a) hfl').1 (by rw [hkeep]; exact hn)
        rw [hfold, this, hfilter]
      · intro items hi
        have := (ih (groupStep fl a) hfl').2 items (by rw [hkeep]; exact hi)
        rw [hfold, this, hfilter]

/-- C6: for every sequence of `add_field` calls on a fresh document
and every tag, the conversion succeeds and the mapping entry for that
tag is exactly the list of the field entries of the calls carrying
that tag, in call order — duplicates included, no entry when the tag
was never used.  In particular its length is the number of calls with
that tag. -/
theorem emplace_field_accumulates (args : List FieldArgs) (tq : String) :
    ∃ fl, convert_marc21xml_to_json (buildF args)._etree =
      Except.ok (PyVal.dict [(some "leader", PyVal.str "00000nam a2200000zca4500"),
        (some "fields", PyVal.dict fl)]) ∧
      dictGet fl (some tq) =
        (if (args.filter (fun a => a.t == tq)).isEmpty then Option.none
         else some (PyVal.list ((args.filter (fun a => a.t == tq)).map fieldPyOf))) := by
  have hl : process initVState (Elem.mk Option.none "leader" [] (some "00000nam a2200000zca4500") []) =
      Except.ok (stOf (PyVal.str "00000nam a2200000zca4500") [] Option.none) := by
    simp [process, initVState, stOf, dictSet, pyOfText]
  obtain ⟨sf', hsf'⟩ := visitL_dfElems args (PyVal.str "00000nam a2200000zca4500") []
    Option.none (by intro k vv hmem; simp at hmem)
  refine ⟨groupF [] args, ?_, ?_⟩
  · unfold convert_marc21xml_to_json
    rw [buildF_children]
    simp only [visitL, hl, hsf']
    rfl
  · exact (dictGet_groupF tq args [] (by intro k vv hmem; simp at hmem)).1 rfl

/-! ### Claim C2: which trees make the conversion fail -/

/-- Tag names the visitor has a `visit_` method for. -/
def handledB (tg : String) : Bool :=
  tg == "record" || tg == "leader" || tg == "controlfield" || tg == "datafield" ||
    tg == "subfield"

/-- Allowed child of a datafield for the amended claim: a subfield or
an unhandled element. -/
def dfChildOkB (g : Elem) : Bool :=
  g.tag == "subfield" || !handledB g.tag

/-- Allowed child of the root for the amended claim: leader,
controlfield, datafield over subfields, or an unhandled element. -/
def topChildOkB (c : Elem) : Bool :=
  c.tag == "leader" || c.tag == "controlfield" ||
    (c.tag == "datafield" && c.children.all dfChildOkB) || !handledB c.tag

/-- Shape hypothesis of the amended claim (MARC-like trees: no nested
record elements, no stray subfields outside datafields). -/
def marcShapeB (root : Elem) : Bool :=
  root.children.all topChildOkB

/-- Does the traversal reach an element with no handling rule?  The
traversal visits the root's children and, inside datafields, their
children; nothing deeper and never the root itself. -/
def badListB (cs : List Elem) : Bool :=
  cs.any (fun c => !handledB c.tag ||
    (c.tag == "datafield" && c.children.any (fun g => !handledB g.tag)))

def hasUnhandledB (root : Elem) : Bool := badListB root.children

/-- Tag attributes of the root's controlfield children. -/
def ctrlTags (root : Elem) : List (Option String) :=
  (root.children.filter (fun c => c.tag == "controlfield")).map (fun c => c.get "tag")

/-- Tag attributes of the root's datafield children. -/
def dataTags (root : Elem) : List (Option String) :=
  (root.children.filter (fun c => c.tag == "datafield")).map (fun c => c.get "tag")

/-- A value a controlfield stores into the fields dict. -/
def CtrlVal (vv : PyVal) : Prop := vv = PyVal.none ∨ ∃ s, vv = PyVal.str s

/-- State invariant while folding over the root's children: the record
dict has its two keys, and every fields entry is either a
controlfield value under a key from `S` or a list. -/
def GoodSt (S : List (Option String)) (st : VState) : Prop :=
  ∃ ldr fl, st.record = [(some "leader", ldr), (some "fields", PyVal.dict fl)] ∧
    ∀ k vv, (k, vv) ∈ fl → (CtrlVal vv ∧ k ∈ S) ∨ ∃ items, vv = PyVal.list items

theorem process_unhandled (st : VState) (nsp : Option String) (tg : String)
    (ats : List (String × String)) (tx : Option String) (gcs : List Elem)
    (h : handledB tg = false) :
    process st (Elem.mk nsp tg ats tx gcs) = Except.error (ConvErr.unsupported tg nsp) := by
  simp only [handledB, Bool.or_eq_false_iff, beq_eq_false_iff_ne, ne_eq] at h
  obtain ⟨⟨⟨⟨h1, h2⟩, h3⟩, h4⟩, h5⟩ := h
  simp [process, h1, h2, h3, h4, h5]

theorem process_leader (st : VState) (nsp : Option String)
    (ats : List (String × String)) (tx : Option String) (gcs : List Elem) :
    process st (Elem.mk nsp "leader" ats tx gcs) =
      Except.ok { st with record := dictSet st.record (some "leader") (pyOfText tx) } := by
  simp [process]

theorem process_controlfield (st : VState) (nsp : Option String)
    (ats : List (String × String)) (tx : Option String) (gcs : List Elem) :
    process st (Elem.mk nsp "controlfield" ats tx gcs) =
      appendString ((Elem.mk nsp "controlfield" ats tx gcs).get "tag") (pyOfText tx) st := by
  simp [process]

theorem process_subfield_none (st : VState) (sf : List (Option String × PyVal))
    (nsp : Option String) (ats : List (String × String)) (tx : Option String)
    (gcs : List Elem) (hsf : st.subfields = some sf)
    (hget : dictGet sf ((Elem.mk nsp "subfield" ats tx gcs).get "code") = Option.none) :
    process st (Elem.mk nsp "subfield" ats tx gcs) =
      Except.ok { st with subfields := some (dictSet sf
        ((Elem.mk nsp "subfield" ats tx gcs).get "code") (PyVal.list [pyOfText tx])) } := by
  have hget2 := dictGet_dictSet_self sf ((Elem.mk nsp "subfield" ats tx gcs).get "code")
    (PyVal.list [])
  simp [process, hsf, hget, hget2, dictSet_dictSet]

theorem process_subfield_list (st : VState) (sf : List (Option String × PyVal))
    (items : List PyVal) (nsp : Option String) (ats : List (String × String))
    (tx : Option String) (gcs : List Elem) (hsf : st.subfields = some sf)
    (hget : dictGet sf ((Elem.mk nsp "subfield" ats tx gcs).get "code") =
      some (PyVal.list items)) :
    process st (Elem.mk nsp "subfield" ats tx gcs) =
      Except.ok { st with subfields := some (dictSet sf
        ((Elem.mk nsp "subfield" ats tx gcs).get "code")
        (PyVal.list (items ++ [pyOfText tx]))) } := by
  simp [process, hsf, hget]

theorem appendString_stOf (ldr : PyVal) (fl : List (Option String × PyVal))
    (k : Option String) (v : PyVal) (sf : Option (List (Option String × PyVal))) :
    appendString k v (stOf ldr fl sf) = Except.ok (stOf ldr (dictSet fl k v) sf) := by
  simp [appendString, stOf, dictGet, dictSet, List.find?]

/-- Folding the visitor over the children of one datafield (under the
shape hypothesis): an unhandled child makes it fail with the
unsupported-element error; otherwise it succeeds, touching only the
subfield accumulator and keeping all its values lists. -/
theorem visitL_subfields :
    ∀ (gs : List Elem) (st : VState) (sf : List (Option String × PyVal)),
      st.subfields = some sf →
      (∀ g ∈ gs, dfChildOkB g = true) →
      (∀ k vv, (k, vv) ∈ sf → ∃ items, vv = PyVal.list items) →
      ((gs.any (fun g => !handledB g.tag)) = true →
        ∃ l n, visitL st gs = Except.error (ConvErr.unsupported l n)) ∧
      ((gs.any (fun g => !handledB g.tag)) = false →
        ∃ sf', visitL st gs = Except.ok (VState.mk st.record (some sf')) ∧
          ∀ k vv, (k, vv) ∈ sf' → ∃ items, vv = PyVal.list items)
  | [] => by
    intro st sf hsf _ hinv
    constructor
    · intro h
      cases h
    · intro _
      refine ⟨sf, ?_, hinv⟩
      cases st with
      | mk r s =>
        cases hsf
        rfl
  | g :: gs => by
    intro st sf hsf hok hinv
    cases g with
    | mk nsp tg ats tx gcs =>
      by_cases hsub : tg = "subfield"
      · subst hsub
        -- the subfield is processed successfully
        have hcode := hinv
        have hstep : ∃ sf2, process st (Elem.mk nsp "subfield" ats tx gcs) =
            Except.ok (VState.mk st.record (some sf2)) ∧
            ∀ k vv, (k, vv) ∈ sf2 → ∃ items, vv = PyVal.list items := by
          cases hget : dictGet sf ((Elem.mk nsp "subfield" ats tx gcs).get "code") with
          | none =>
            refine ⟨dictSet sf ((Elem.mk nsp "subfield" ats tx gcs).get "code")
              (PyVal.list [pyOfText tx]), ?_, ?_⟩
            · rw [process_subfield_none st sf nsp ats tx gcs hsf hget]
            · intro k vv hmem
              rcases mem_dictSet _ _ _ _ _ hmem with ⟨_, hv⟩ | hmem'
              · exact ⟨_, hv⟩
              · exact hinv k vv hmem'
          | some vv0 =>
            obtain ⟨items0, hitems0⟩ := hinv _ vv0 (dictGet_mem _ _ _ hget)
            subst hitems0
            refine ⟨dictSet sf ((Elem.mk nsp "subfield" ats tx gcs).get "code")
              (PyVal.list (items0 ++ [pyOfText tx])), ?_, ?_⟩
            · rw [process_subfield_list st sf items0 nsp ats tx gcs hsf hget]
            · intro k vv hmem
              rcases mem_dictSet _ _ _ _ _ hmem with ⟨_, hv⟩ | hmem'
              · exact ⟨_, hv⟩
              · exact hinv k vv hmem'
        obtain ⟨sf2, hpr, hinv2⟩ := hstep
        have hrest := visitL_subfields gs (VState.mk st.record (some sf2)) sf2 rfl
          (fun g hg => hok g (List.mem_cons_of_mem _ hg)) hinv2
        have hany : ((Elem.mk nsp "subfield" ats tx gcs :: gs).any
            (fun g => !handledB g.tag)) = gs.any (fun g => !handledB g.tag) := by
          simp [Elem.tag, handledB]
        constructor
        · intro h
          rw [hany] at h
          obtain ⟨l, n, hl⟩ := hrest.1 h
          exact ⟨l, n, by rw [visitL, hpr]; exact hl⟩
        · intro h
          rw [hany] at h
          obtain ⟨sf', hv, hinv'⟩ := hrest.2 h
          exact ⟨sf', by rw [visitL, hpr]; exact hv, hinv'⟩
      · -- unhandled child: the fold raises immediately
        have hbad : handledB tg = false := by
          have := hok (Elem.mk nsp tg ats tx gcs) (List.mem_cons_self _ _)
          simp only [dfChildOkB, Elem.tag, Bool.or_eq_true, beq_iff_eq] at this
          rcases this with hh | hh
          · exact absurd hh hsub
          · simpa using hh
        constructor
        · intro _
          refine ⟨tg, nsp, ?_⟩
          rw [visitL, process_unhandled st nsp tg ats tx gcs hbad]
        · intro h
          rw [List.any_cons] at h
          simp only [Bool.or_eq_false_iff] at h
          rw [show (Elem.mk nsp tg ats tx gcs).tag = tg from rfl, hbad] at h
          cases h.1

/-- Folding the visitor over the root's children of a shape-conforming
tree with controlfield/datafield tag attributes disjoint: an unhandled
element reached by the traversal yields the unsupported-element
failure, and otherwise the fold succeeds. -/
theorem visitL_top :
    ∀ (cs : List Elem) (S : List (Option String)) (st : VState), GoodSt S st →
      (∀ c ∈ cs, topChildOkB c = true) →
      (∀ c ∈ cs, c.tag = "controlfield" → c.get "tag" ∈ S) →
      (∀ c ∈ cs, c.tag = "datafield" → ¬(c.get "tag" ∈ S)) →
      (badListB cs = true → ∃ l n, visitL st cs = Except.error (ConvErr.unsupported l n)) ∧
      (badListB cs = false → ∃ st', visitL st cs = Except.ok st' ∧ GoodSt S st')
  | [] => by
    intro S st hst _ _ _
    refine ⟨?_, ?_⟩
    · intro h
      cases h
    · intro _
      exact ⟨st, rfl, hst⟩
  | c :: cs => by
    intro S st hst hok hctrl hdata
    obtain ⟨ldr, fl, hrec, hflinv⟩ := hst
    have hstOf : st = stOf ldr fl st.subfields := by
      cases st with
      | mk r s =>
        simp only at hrec
        rw [stOf, hrec]
    cases c with
    | mk nsp tg ats tx gcs =>
      have htop := hok (Elem.mk nsp tg ats tx gcs) (List.mem_cons_self _ _)
      simp only [topChildOkB, Elem.tag, Bool.or_eq_true, beq_iff_eq,
        Bool.and_eq_true] at htop
      have hbadcons : badListB (Elem.mk nsp tg ats tx gcs :: cs) =
          ((!handledB tg || (tg == "datafield" &&
            gcs.any (fun g => !handledB g.tag))) || badListB cs) := by
        rw [badListB, List.any_cons]
        rfl
      rcases htop with ((hlead | hctl) | ⟨hdf, hdfok⟩) | hunh
      · -- leader child
        subst hlead
        have hpr := process_leader st nsp ats tx gcs
        have hst' : GoodSt S { st with record := dictSet st.record (some "leader") (pyOfText tx) } := by
          refine ⟨pyOfText tx, fl, ?_, hflinv⟩
          rw [hrec]
          simp [dictSet]
        have hrest := visitL_top cs S _ hst' (fun x hx => hok x (List.mem_cons_of_mem _ hx))
          (fun x hx => hctrl x (List.mem_cons_of_mem _ hx))
          (fun x hx => hdata x (List.mem_cons_of_mem _ hx))
        have hbad : badListB (Elem.mk nsp "leader" ats tx gcs :: cs) = badListB cs := by
          rw [hbadcons]
          simp [handledB]
        constructor
        · intro h
          rw [hbad] at h
          obtain ⟨l, n, hl⟩ := hrest.1 h
          exact ⟨l, n, by rw [visitL, hpr]; exact hl⟩
        · intro h
          rw [hbad] at h
          obtain ⟨st', hv, hgood⟩ := hrest.2 h
          exact ⟨st', by rw [visitL, hpr]; exact hv, hgood⟩
      · -- controlfield child
        subst hctl
        have hpr := process_controlfield st nsp ats tx gcs
        have hap : appendString ((Elem.mk nsp "controlfield" ats tx gcs).get "tag")
            (pyOfText tx) st = Except.ok (stOf ldr
              (dictSet fl ((Elem.mk nsp "controlfield" ats tx gcs).get "tag") (pyOfText tx))
              st.subfields) := by
          rw [hstOf]
          exact appendString_stOf ldr fl _ _ _
        have hst' : GoodSt S (stOf ldr
            (dictSet fl ((Elem.mk nsp "controlfield" ats tx gcs).get "tag") (pyOfText tx))
            st.subfields) := by
          refine ⟨ldr, _, rfl, ?_⟩
          intro k vv hmem
          rcases mem_dictSet _ _ _ _ _ hmem with ⟨hk, hv⟩ | hmem'
          · refine Or.inl ⟨?_, ?_⟩
            · cases tx with
              | none => exact Or.inl hv
              | some s => exact Or.inr ⟨s, hv⟩
            · rw [hk]
              exact hctrl (Elem.mk nsp "controlfield" ats tx gcs)
                (List.mem_cons_self _ _) rfl
          · exact hflinv k vv hmem'
        have hrest := visitL_top cs S _ hst' (fun x hx => hok x (List.mem_cons_of_mem _ hx))
          (fun x hx => hctrl x (List.mem_cons_of_mem _ hx))
          (fun x hx => hdata x (List.mem_cons_of_mem _ hx))
        have hbad : badListB (Elem.mk nsp "controlfield" ats tx gcs :: cs) = badListB cs := by
          rw [hbadcons]
          simp [handledB]
        constructor
        · intro h
          rw [hbad] at h
          obtain ⟨l, n, hl⟩ := hrest.1 h
          exact ⟨l, n, by rw [visitL, hpr, hap]; exact hl⟩
        · intro h
          rw [hbad] at h
          obtain ⟨st', hv, hgood⟩ := hrest.2 h
          exact ⟨st', by rw [visitL, hpr, hap]; exact hv, hgood⟩
      · -- datafield child
        subst hdf
        have hdfeq : process st (Elem.mk nsp "datafield" ats tx gcs) =
            (match visitL { st with subfields := some [] } gcs with
             | Except.error err => Except.error err
             | Except.ok st2 =>
               appendField ((Elem.mk nsp "datafield" ats tx gcs).get "tag")
                 (PyVal.dict [(some "ind1",
                    PyVal.str (replaceSpace (((Elem.mk nsp "datafield" ats tx gcs).get "ind1").getD "_"))),
                   (some "ind2",
                    PyVal.str (replaceSpace (((Elem.mk nsp "datafield" ats tx gcs).get "ind2").getD "_"))),
                   (some "subfields", PyVal.dict (st2.subfields.getD []))]) st2) := by
          simp [process]
        have hsub := visitL_subfields gcs { st with subfields := some [] } [] rfl
          (by
            intro g hg
            exact (List.all_eq_true.mp hdfok) g hg)
          (by intro k vv hmem; cases hmem)
        cases hinner : gcs.any (fun g => !handledB g.tag) with
        | true =>
          obtain ⟨l, n, hl⟩ := hsub.1 hinner
          constructor
          · intro _
            exact ⟨l, n, by rw [visitL, hdfeq, hl]⟩
          · intro h
            rw [hbadcons, hinner] at h
            simp [handledB] at h
        | false =>
          obtain ⟨sf', hv, hinv'⟩ := hsub.2 hinner
          -- the datafield entry is appended to the fields dict
          have hrecst : ({ st with subfields := some [] } : VState).record = st.record := rfl
          have hkey : ¬((Elem.mk nsp "datafield" ats tx gcs).get "tag" ∈ S) :=
            hdata (Elem.mk nsp "datafield" ats tx gcs) (List.mem_cons_self _ _) rfl
          have hap : ∃ fl', appendField ((Elem.mk nsp "datafield" ats tx gcs).get "tag")
              (PyVal.dict [(some "ind1",
                 PyVal.str (replaceSpace (((Elem.mk nsp "datafield" ats tx gcs).get "ind1").getD "_"))),
                (some "ind2",
                 PyVal.str (replaceSpace (((Elem.mk nsp "datafield" ats tx gcs).get "ind2").getD "_"))),
                (some "subfields", PyVal.dict sf')])
              (VState.mk st.record (some sf')) =
              Except.ok (stOf ldr fl' (some sf')) ∧
              ∀ k vv, (k, vv) ∈ fl' → (CtrlVal vv ∧ k ∈ S) ∨ ∃ items, vv = PyVal.list items := by
            have hmkst : (VState.mk st.record (some sf')) = stOf ldr fl (some sf') := by
              rw [stOf, hrec]
            set key := (Elem.mk nsp "datafield" ats tx gcs).get "tag" with hkeydef
            set fv := PyVal.dict [(some "ind1",
                 PyVal.str (replaceSpace (((Elem.mk nsp "datafield" ats tx gcs).get "ind1").getD "_"))),
                (some "ind2",
                 PyVal.str (replaceSpace (((Elem.mk nsp "datafield" ats tx gcs).get "ind2").getD "_"))),
                (some "subfields", PyVal.dict sf')] with hfvdef
            cases hget : dictGet fl key with
            | none =>
              refine ⟨dictSet fl key (PyVal.list [fv]), ?_, ?_⟩
              · rw [hmkst]
                exact appendField_stOf_none ldr fl key fv (some sf') hget
              · intro k vv hmem
                rcases mem_dictSet _ _ _ _ _ hmem with ⟨_, hv2⟩ | hmem'
                · exact Or.inr ⟨_, hv2⟩
                · exact hflinv k vv hmem'
            | some vv0 =>
              rcases hflinv key vv0 (dictGet_mem _ _ _ hget) with ⟨_, hkS⟩ | ⟨items0, hit⟩
              · exact absurd hkS hkey
              · subst hit
                refine ⟨dictSet fl key (PyVal.list (items0 ++ [fv])), ?_, ?_⟩
                · rw [hmkst]
                  exact appendField_stOf_list ldr fl key fv items0 (some sf') hget
                · intro k vv hmem
                  rcases mem_dictSet _ _ _ _ _ hmem with ⟨_, hv2⟩ | hmem'
                  · exact Or.inr ⟨_, hv2⟩
                  · exact hflinv k vv hmem'
          obtain ⟨fl', hap', hfl'inv⟩ := hap
          have hst' : GoodSt S (stOf ldr fl' (some sf')) := ⟨ldr, fl', rfl, hfl'inv⟩
          have hrest := visitL_top cs S _ hst' (fun x hx => hok x (List.mem_cons_of_mem _ hx))
            (fun x hx => hctrl x (List.mem_cons_of_mem _ hx))
            (fun x hx => hdata x (List.mem_cons_of_mem _ hx))
          have hbad : badListB (Elem.mk nsp "datafield" ats tx gcs :: cs) = badListB cs := by
            rw [hbadcons, hinner]
            simp [handledB]
          have hchain : visitL st (Elem.mk nsp "datafield" ats tx gcs :: cs) =
              visitL (stOf ldr fl' (some sf')) cs := by
            rw [visitL, hdfeq, hv]
            simp only []
            rw [show (VState.mk ({ st with subfields := some [] } : VState).record
              (some sf')).subfields.getD [] = sf' from rfl]
            rw [show (VState.mk ({ st with subfields := some [] } : VState).record (some sf')) =
              VState.mk st.record (some sf') from rfl] at hap' ⊢
            rw [hap']
          constructor
          · intro h
            rw [hbad] at h
            obtain ⟨l, n, hl⟩ := hrest.1 h
            exact ⟨l, n, by rw [hchain, hl]⟩
          · intro h
            rw [hbad] at h
            obtain ⟨st', hv2, hgood⟩ := hrest.2 h
            exact ⟨st', by rw [hchain]; exact hv2, hgood⟩
      · -- unhandled child
        have hbadtg : handledB tg = false := by simpa using hunh
        constructor
        · intro _
          exact ⟨tg, nsp, by rw [visitL, process_unhandled st nsp tg ats tx gcs hbadtg]⟩
        · intro h
          rw [hbadcons] at h
          simp only [Bool.or_eq_false_iff] at h
          rw [hbadtg] at h
          simp at h

/-- C2 (amended): the conversion never dispatches on the root's own
tag (any root tag is accepted), and it visits only the root's children
and, within datafields, their children — elements nested under leader,
controlfield or subfield nodes are never examined.  For MARC-shaped
trees (children of the root are leader/controlfield/datafield/unknown
nodes, datafield children are subfield/unknown nodes) whose
controlfield and datafield tag attributes are disjoint, the conversion
fails — with the unsupported-element error carrying a local name and
namespace — exactly when the traversal reaches an element with no
handling rule, and succeeds otherwise.  In particular an element named
"foo" placed under the record root makes the conversion fail naming
"foo". -/
theorem convert_unsupported_characterization (root : Elem)
    (hshape : marcShapeB root = true)
    (hdisj : ∀ x ∈ dataTags root, x ∉ ctrlTags root) :
    ((∃ l n, convert_marc21xml_to_json root = Except.error (ConvErr.unsupported l n)) ↔
      hasUnhandledB root = true) ∧
    (hasUnhandledB root = false → ∃ r, convert_marc21xml_to_json root = Except.ok r) ∧
    convert_marc21xml_to_json (Elem.mk Option.none "record" [] Option.none
      [Elem.mk Option.none "foo" [] Option.none []]) =
      Except.error (ConvErr.unsupported "foo" Option.none) := by
  have hgood : GoodSt (ctrlTags root) initVState := by
    refine ⟨PyVal.str "", [], rfl, ?_⟩
    intro k vv h
    cases h
  have htop := visitL_top root.children (ctrlTags root) initVState hgood
    (by
      intro c hc
      exact (List.all_eq_true.mp hshape) c hc)
    (by
      intro c hc htag
      rw [ctrlTags]
      refine List.mem_map.mpr ⟨c, ?_, rfl⟩
      refine List.mem_filter.mpr ⟨hc, ?_⟩
      simp [htag])
    (by
      intro c hc htag hmemS
      refine hdisj (c.get "tag") ?_ hmemS
      rw [dataTags]
      refine List.mem_map.mpr ⟨c, ?_, rfl⟩
      exact List.mem_filter.mpr ⟨hc, by simp [htag]⟩)
  refine ⟨?_, ?_, rfl⟩
  · constructor
    · intro hex
      obtain ⟨l, n, hl⟩ := hex
      cases hval : hasUnhandledB root with
      | true => rfl
      | false =>
        obtain ⟨st', hst', _⟩ := htop.2 hval
        unfold convert_marc21xml_to_json at hl
        rw [hst'] at hl
        simp at hl
    · intro h
      obtain ⟨l, n, hl⟩ := htop.1 h
      refine ⟨l, n, ?_⟩
      unfold convert_marc21xml_to_json
      rw [hl]
  · intro h
    obtain ⟨st', hst', _⟩ := htop.2 h
    refine ⟨PyVal.dict st'.record, ?_⟩
    unfold convert_marc21xml_to_json
    rw [hst']

/-- Witness for C2 (amended), instantiated at a record root holding a
single unhandled "foo" element. -/
theorem convert_unsupported_characterization_witness :
    hasUnhandledB (Elem.mk Option.none "record" [] Option.none
      [Elem.mk Option.none "foo" [] Option.none []]) = true :=
  (convert_unsupported_characterization
    (Elem.mk Option.none "record" [] Option.none [Elem.mk Option.none "foo" [] Option.none []])
    rfl (fun x hx => absurd hx (List.not_mem_nil x))).1.mp
    ⟨"foo", Option.none, rfl⟩

/-- Counterexample to C2 as stated: a root whose tag is not `record`
(and which therefore, per the claim, must fail with an
UnsupportedElement error) converts successfully — the conversion
iterates over the root's children and never dispatches on the root's
own tag. -/
theorem convert_root_tag_counterexample :
    (Elem.mk Option.none "notrecord" [] Option.none []).tag ≠ "record" ∧
    convert_marc21xml_to_json (Elem.mk Option.none "notrecord" [] Option.none []) =
      Except.ok (PyVal.dict [(some "leader", PyVal.str ""), (some "fields", PyVal.dict [])]) :=
  ⟨by decide, rfl⟩

/-! ### Claim C7: indicator normalization -/

/-- Projection: the first field entry stored under tag `t` in a
conversion result. -/
def firstFieldEntry (res : Except ConvErr PyVal) (t : String) : Option PyVal :=
  match res with
  | Except.ok (PyVal.dict rec) =>
    match dictGet rec (some "fields") with
    | some (PyVal.dict fl) =>
      match dictGet fl (some t) with
      | some (PyVal.list (f :: _)) => some f
      | _ => Option.none
    | _ => Option.none
  | _ => Option.none

/-- Projection: the `ind1` entry of a field-entry dict. -/
def entryInd1 : Option PyVal → Option PyVal
  | some (PyVal.dict f) => dictGet f (some "ind1")
  | _ => Option.none

/-- Projection: the `ind2` entry of a field-entry dict. -/
def entryInd2 : Option PyVal → Option PyVal
  | some (PyVal.dict f) => dictGet f (some "ind2")
  | _ => Option.none

/-- Conversion of a fresh document holding exactly one emplaced
datafield. -/
theorem convert_init_single_field (t i1 i2 c v : String) :
    convert_marc21xml_to_json (Marc21Metadata.emplace_field t i1 i2 c v initMetadata)._etree =
      Except.ok (PyVal.dict [(some "leader", PyVal.str "00000nam a2200000zca4500"),
        (some "fields", PyVal.dict [(some t, PyVal.list [fieldPy i1 i2 c v])])]) := by
  have hi : initVState = stOf (PyVal.str "") [] Option.none := rfl
  have hl : process (stOf (PyVal.str "") [] Option.none)
      (Elem.mk Option.none "leader" [] (some "00000nam a2200000zca4500") []) =
      Except.ok (stOf (PyVal.str "00000nam a2200000zca4500") [] Option.none) := by
    simp [process, stOf, dictSet, pyOfText]
  have hdf2 : process (stOf (PyVal.str "00000nam a2200000zca4500") [] Option.none)
      (dfElem t i1 i2 c v) =
      Except.ok (stOf (PyVal.str "00000nam a2200000zca4500")
        [(some t, PyVal.list [fieldPy i1 i2 c v])]
        (some [(some c, PyVal.list [PyVal.str v])])) := by
    rw [process_dfElem]
    have hst : VState.mk (stOf (PyVal.str "00000nam a2200000zca4500") [] Option.none).record
        (some [(some c, PyVal.list [PyVal.str v])]) =
        stOf (PyVal.str "00000nam a2200000zca4500") [] (some [(some c, PyVal.list [PyVal.str v])]) := rfl
    rw [hst, appendField_stOf_none _ _ _ _ _ (by simp [dictGet])]
    rfl
  have hch : (Marc21Metadata.emplace_field t i1 i2 c v initMetadata)._etree.children =
      [Elem.mk Option.none "leader" [] (some "00000nam a2200000zca4500") [], dfElem t i1 i2 c v] := rfl
  unfold convert_marc21xml_to_json
  rw [hch, hi]
  simp only [visitL, hl, hdf2]
  rfl

/-- C7: a datafield carrying `ind1=" "` is rendered in the mapping
with `ind1 = "_"` and one carrying `ind2=" "` with `ind2 = "_"`; a
datafield carrying `ind1="1"` (resp. `ind2="1"`) keeps `"1"` in the
mapping; in every case the canonical XML tree keeps the literal
attribute value (the real space resp. "1") untouched — the
normalization affects the mapping form only. -/
theorem indicator_normalization (t i1 i2 c v : String) :
    entryInd1 (firstFieldEntry (convert_marc21xml_to_json
      (Marc21Metadata.emplace_field t " " i2 c v initMetadata)._etree) t) = some (PyVal.str "_") ∧
    (Marc21Metadata.emplace_field t " " i2 c v initMetadata)._etree.children.map
      (fun e => e.get "ind1") = [Option.none, some " "] ∧
    entryInd1 (firstFieldEntry (convert_marc21xml_to_json
      (Marc21Metadata.emplace_field t "1" i2 c v initMetadata)._etree) t) = some (PyVal.str "1") ∧
    (Marc21Metadata.emplace_field t "1" i2 c v initMetadata)._etree.children.map
      (fun e => e.get "ind1") = [Option.none, some "1"] ∧
    entryInd2 (firstFieldEntry (convert_marc21xml_to_json
      (Marc21Metadata.emplace_field t i1 " " c v initMetadata)._etree) t) = some (PyVal.str "_") ∧
    (Marc21Metadata.emplace_field t i1 " " c v initMetadata)._etree.children.map
      (fun e => e.get "ind2") = [Option.none, some " "] ∧
    entryInd2 (firstFieldEntry (convert_marc21xml_to_json
      (Marc21Metadata.emplace_field t i1 "1" c v initMetadata)._etree) t) = some (PyVal.str "1") ∧
    (Marc21Metadata.emplace_field t i1 "1" c v initMetadata)._etree.children.map
      (fun e => e.get "ind2") = [Option.none, some "1"] := by
  have hrepS : replaceSpace " " = "_" := by decide
  have hrep1 : replaceSpace "1" = "1" := by decide
  refine ⟨?_, ?_, ?_, ?_, ?_, ?_, ?_, ?_⟩
  · simp [convert_init_single_field, firstFieldEntry, entryInd1, fieldPy, dictGet,
      List.find?, hrepS]
  · simp [Marc21Metadata.emplace_field, initMetadata, Elem.appendChild, Elem.withChildren,
      Elem.children, dfElem, Elem.get, List.find?]
  · simp [convert_init_single_field, firstFieldEntry, entryInd1, fieldPy, dictGet,
      List.find?, hrep1]
  · simp [Marc21Metadata.emplace_field, initMetadata, Elem.appendChild, Elem.withChildren,
      Elem.children, dfElem, Elem.get, List.find?]
  · simp [convert_init_single_field, firstFieldEntry, entryInd2, fieldPy, dictGet,
      List.find?, hrepS]
  · simp [Marc21Metadata.emplace_field, initMetadata, Elem.appendChild, Elem.withChildren,
      Elem.children, dfElem, Elem.get, List.find?]
  · simp [convert_init_single_field, firstFieldEntry, entryInd2, fieldPy, dictGet,
      List.find?, hrep1]
  · simp [Marc21Metadata.emplace_field, initMetadata, Elem.appendChild, Elem.withChildren,
      Elem.children, dfElem, Elem.get, List.find?]

end Marc21
